import Mathlib

/-
Verification of the fmm middle-end transformations: the CPS transformation
(analysis/cps/source_function.rs and its companion passes) and the C
calling-convention transformation (analysis/c_calling_convention.rs).

The IR is embedded shallowly.  Components of the repository whose sources are
not available (the free-variable and local-variable analyses, the type
checker, the stack primitives, the name generator, the instruction builder
and the pass drivers) are modelled from the specification; each such
definition carries a doc comment starting with "Modelled from the spec".
-/

/-! Lexicographic order on strings, evaluated character by character.  The
specification pins the continuation-environment field order to lexicographic
order by name, so the free-variable collector below sorts with this order. -/

def charLtB (a b : Char) : Bool := a.val.toNat < b.val.toNat

def charListLtB : List Char → List Char → Bool
  | [], [] => false
  | [], _ :: _ => true
  | _ :: _, [] => false
  | a :: as_, b :: bs => if a = b then charListLtB as_ bs else charLtB a b

def stringLtB (a b : String) : Bool := charListLtB a.toList b.toList

def insertName (x : String) : List String → List String
  | [] => [x]
  | y :: ys => if stringLtB y x then y :: insertName x ys else x :: y :: ys

def sortNames : List String → List String
  | [] => []
  | x :: xs => insertName x (sortNames xs)

def dedupNamesAux (seen : List String) : List String → List String
  | [] => []
  | x :: xs => if x ∈ seen then dedupNamesAux seen xs else x :: dedupNamesAux (x :: seen) xs

def dedupNames (names : List String) : List String := dedupNamesAux [] names

/-- A list of names is lexicographically sorted when no element is strictly
below its predecessor. -/
def lexSortedB : List String → Bool
  | [] => true
  | [_] => true
  | x :: y :: rest => !stringLtB y x && lexSortedB (y :: rest)

/-! The IR algebra.  The node categories follow src/fmm/src/ir/mod.rs and
src/fmm/src/types; nodes whose own source files are absent are modelled from
the data model in the specification (calling conventions, primitives,
pointer, record, union and function types, expressions, instructions,
terminal instructions, blocks, definitions and modules).  Atomic operations,
heap allocation and union deconstruction are omitted: no analysed transform
or claim distinguishes them from the other pass-through instructions. -/

inductive CallingConvention where
  | source
  | tail
  | target
deriving DecidableEq

inductive Linkage where
  | external
  | internal
  | weak
deriving DecidableEq

inductive PrimitiveType where
  | boolean
  | integer8
  | integer32
  | integer64
  | float32
  | float64
  | pointerInteger
deriving DecidableEq

/-- Primitive literals; float payloads are kept as raw bit patterns so that
equality stays structural. -/
inductive PrimitiveLiteral where
  | boolean (value : Bool)
  | integer8 (value : Nat)
  | integer32 (value : Nat)
  | integer64 (value : Nat)
  | float32 (bits : Nat)
  | float64 (bits : Nat)
  | pointerInteger (value : Nat)
deriving DecidableEq

def primitiveLiteralType : PrimitiveLiteral → PrimitiveType
  | .boolean _ => .boolean
  | .integer8 _ => .integer8
  | .integer32 _ => .integer32
  | .integer64 _ => .integer64
  | .float32 _ => .float32
  | .float64 _ => .float64
  | .pointerInteger _ => .pointerInteger

inductive ArithmeticOperator where
  | add
  | subtract
  | multiply
  | divide
deriving DecidableEq

inductive ComparisonOperator where
  | equal
  | notEqual
  | lessThan
  | greaterThan
deriving DecidableEq

inductive IRType where
  | primitive (type : PrimitiveType)
  | pointer (element : IRType)
  | record (fields : List IRType)
  | union (members : List IRType)
  | function (arguments : List IRType) (result : IRType) (callingConvention : CallingConvention)

/- Structural equality test on types; the checker compares inferred types
against annotations with it. -/
mutual

def IRType.beq : IRType → IRType → Bool
  | .primitive a, .primitive b => a = b
  | .pointer a, .pointer b => IRType.beq a b
  | .record a, .record b => IRType.beqList a b
  | .union a, .union b => IRType.beqList a b
  | .function a r c, .function a2 r2 c2 =>
      IRType.beqList a a2 && IRType.beq r r2 && (c = c2)
  | _, _ => false

def IRType.beqList : List IRType → List IRType → Bool
  | [], [] => true
  | a :: as_, b :: bs => IRType.beq a b && IRType.beqList as_ bs
  | _, _ => false

end

/-- The unit type: the empty record, as in fmm's void_type(). -/
def voidType : IRType := .record []

/-- A function type as carried by calls and function declarations
(fmm's types::Function). -/
structure FunctionType where
  arguments : List IRType
  result : IRType
  callingConvention : CallingConvention

def FunctionType.toType (f : FunctionType) : IRType :=
  .function f.arguments f.result f.callingConvention

inductive Expression where
  | variable (name : String)
  | primitive (literal : PrimitiveLiteral)
  | undefined (type : IRType)
  | record (type : IRType) (fields : List Expression)
  | bitCast (source : IRType) (destination : IRType) (expression : Expression)
  | arithmeticOperation (type : PrimitiveType) (operator : ArithmeticOperator)
      (lhs : Expression) (rhs : Expression)
  | comparisonOperation (type : PrimitiveType) (operator : ComparisonOperator)
      (lhs : Expression) (rhs : Expression)

/-- The canonical value of the void type, as in fmm's void_value(). -/
def voidValue : Expression := .record voidType []

inductive TerminalInstruction where
  | return_ (type : IRType) (expression : Expression)
  | branch (type : IRType) (expression : Expression)
  | unreachable

/-- A call instruction's payload, following src/fmm/src/ir/call.rs. -/
structure Call where
  type : FunctionType
  function : Expression
  arguments : List Expression
  name : String

mutual

inductive Instruction where
  | allocateStack (type : IRType) (name : String)
  | call (call : Call)
  | deconstructRecord (type : IRType) (record : Expression) (index : Nat) (name : String)
  | if_ (type : IRType) (condition : Expression) (thenBlock : Block) (elseBlock : Block)
      (name : String)
  | load (type : IRType) (pointer : Expression) (name : String)
  | memoryCopy (source : Expression) (destination : Expression) (size : Expression)
  | passThrough (type : IRType) (expression : Expression) (name : String)
  | store (type : IRType) (value : Expression) (pointer : Expression)

inductive Block where
  | mk (instructions : List Instruction) (terminalInstruction : TerminalInstruction)

end

def Block.instructions : Block → List Instruction
  | .mk is _ => is

def Block.terminalInstruction : Block → TerminalInstruction
  | .mk _ t => t

structure Argument where
  name : String
  type : IRType

structure FunctionDefinitionOptions where
  addressNamed : Bool
  callingConvention : CallingConvention
  linkage : Linkage

structure FunctionDefinition where
  name : String
  arguments : List Argument
  resultType : IRType
  body : Block
  options : FunctionDefinitionOptions

/-- The type of a defined function, derived from its arguments, result type
and calling-convention option. -/
def FunctionDefinition.type (d : FunctionDefinition) : FunctionType :=
  ⟨d.arguments.map Argument.type, d.resultType, d.options.callingConvention⟩

structure FunctionDeclaration where
  name : String
  type : FunctionType

structure VariableDeclaration where
  name : String
  type : IRType

structure VariableDefinition where
  name : String
  body : Expression
  type : IRType

structure IRModule where
  variableDeclarations : List VariableDeclaration
  functionDeclarations : List FunctionDeclaration
  variableDefinitions : List VariableDefinition
  functionDefinitions : List FunctionDefinition

/-! Free-variable collection. -/

/- Names referenced by an expression, in syntactic order. -/
mutual

def expressionFreeVariables : Expression → List String
  | .variable n => [n]
  | .primitive _ => []
  | .undefined _ => []
  | .record _ fields => expressionListFreeVariables fields
  | .bitCast _ _ e => expressionFreeVariables e
  | .arithmeticOperation _ _ l r => expressionFreeVariables l ++ expressionFreeVariables r
  | .comparisonOperation _ _ l r => expressionFreeVariables l ++ expressionFreeVariables r

def expressionListFreeVariables : List Expression → List String
  | [] => []
  | e :: es => expressionFreeVariables e ++ expressionListFreeVariables es

end

def terminalFreeVariables : TerminalInstruction → List String
  | .return_ _ e => expressionFreeVariables e
  | .branch _ e => expressionFreeVariables e
  | .unreachable => []

/-- The name an instruction binds, if any. -/
def instructionBinder : Instruction → Option String
  | .allocateStack _ n => some n
  | .call c => some c.name
  | .deconstructRecord _ _ _ n => some n
  | .if_ _ _ _ _ n => some n
  | .load _ _ n => some n
  | .memoryCopy _ _ _ => none
  | .passThrough _ _ n => some n
  | .store _ _ _ => none

/- Modelled from the spec: free-variable collection (§4.5).  The collector
walks the instructions top-down, recording the names each instruction
references that are not already bound, then subtracting the instruction's own
binder for the instructions that follow; the terminal instruction's
references are collected last.  References inside an `if` arm are collected
with that arm's own binders local to it. -/
mutual

def collectFreeRaw (bound : List String) : List Instruction → TerminalInstruction → List String
  | [], terminal => (terminalFreeVariables terminal).filter (fun n => n ∉ bound)
  | i :: rest, terminal =>
      (instructionReferences i).filter (fun n => n ∉ bound) ++
        collectFreeRaw
          (match instructionBinder i with
            | some n => n :: bound
            | none => bound)
          rest terminal

def instructionReferences : Instruction → List String
  | .allocateStack _ _ => []
  | .call c => expressionFreeVariables c.function ++ expressionListFreeVariables c.arguments
  | .deconstructRecord _ e _ _ => expressionFreeVariables e
  | .if_ _ condition (.mk tis tt) (.mk eis et) _ =>
      expressionFreeVariables condition ++ collectFreeRaw [] tis tt ++ collectFreeRaw [] eis et
  | .load _ p _ => expressionFreeVariables p
  | .memoryCopy s d z =>
      expressionFreeVariables s ++ expressionFreeVariables d ++ expressionFreeVariables z
  | .passThrough _ e _ => expressionFreeVariables e
  | .store _ v p => expressionFreeVariables v ++ expressionFreeVariables p

end

/-- Modelled from the spec: the set of names free in a sequence of
instructions and a terminal (§4.5), returned sorted lexicographically by
name — the iteration order the spec pins down for continuation-environment
layouts (§9). -/
def freeVariableCollect (instructions : List Instruction)
    (terminal : TerminalInstruction) : List String :=
  sortNames (dedupNames (collectFreeRaw [] instructions terminal))

/-! Local-variable collection. -/

/-- The default element type produced by an out-of-range record index; never
reached on well-typed inputs. -/
def recordFieldType : IRType → Nat → IRType
  | .record fields, index => fields.getD index voidType
  | _, _ => voidType

/-- Modelled from the spec: the typed binding an instruction introduces, used
by local-variable collection (§4.5). -/
def instructionLocalVariable : Instruction → Option (String × IRType)
  | .allocateStack t n => some (n, .pointer t)
  | .call c => some (c.name, c.type.result)
  | .deconstructRecord t _ i n => some (n, recordFieldType t i)
  | .if_ t _ _ _ n => some (n, t)
  | .load t _ n => some (n, t)
  | .memoryCopy _ _ _ => none
  | .passThrough t _ n => some (n, t)
  | .store _ _ _ => none

mutual

def instructionListLocalVariables : List Instruction → List (String × IRType)
  | [] => []
  | .if_ t _ (.mk tis _) (.mk eis _) n :: rest =>
      (n, t) :: (instructionListLocalVariables tis ++ instructionListLocalVariables eis ++
        instructionListLocalVariables rest)
  | i :: rest =>
      (match instructionLocalVariable i with
        | some p => [p]
        | none => []) ++ instructionListLocalVariables rest

end

/-- Modelled from the spec: local-variable collection (§4.5) — the typed
environment of every locally bound name in a function definition: its
arguments, instruction result names and `if`-join names, including names
bound inside `if` arms. -/
def localVariableCollect (d : FunctionDefinition) : List (String × IRType) :=
  d.arguments.map (fun a => (a.name, a.type)) ++
    instructionListLocalVariables d.body.instructions

/-! The type checker. -/

/- Modelled from the spec: expression type inference for the one-pass
structural type checker (§4.2).  The environment maps in-scope names to
types; inference fails with none where §4.2 prescribes an error. -/
mutual

def inferExpression (env : List (String × IRType)) : Expression → Option IRType
  | .variable n => env.lookup n
  | .primitive l => some (.primitive (primitiveLiteralType l))
  | .undefined t => some t
  | .record t fields =>
      match t with
      | .record fieldTypes =>
          if checkExpressionList env fields fieldTypes then some (.record fieldTypes) else none
      | _ => none
  | .bitCast s d e =>
      match inferExpression env e with
      | some t => if IRType.beq t s then some d else none
      | none => none
  | .arithmeticOperation t _ l r =>
      match inferExpression env l, inferExpression env r with
      | some lt, some rt =>
          if IRType.beq lt (.primitive t) && IRType.beq rt (.primitive t) then
            some (.primitive t)
          else none
      | _, _ => none
  | .comparisonOperation t _ l r =>
      match inferExpression env l, inferExpression env r with
      | some lt, some rt =>
          if IRType.beq lt (.primitive t) && IRType.beq rt (.primitive t) then
            some (.primitive .boolean)
          else none
      | _, _ => none

def checkExpressionList (env : List (String × IRType)) :
    List Expression → List IRType → Bool
  | [], [] => true
  | e :: es, t :: ts =>
      (match inferExpression env e with
        | some et => IRType.beq et t
        | none => false) &&
        checkExpressionList env es ts
  | _, _ => false

end

def checkExpressionIs (env : List (String × IRType)) (e : Expression) (t : IRType) : Bool :=
  match inferExpression env e with
  | some et => IRType.beq et t
  | none => false

/-- Modelled from the spec: terminal-instruction checking (§4.2) — a return
matches the enclosing function's result type, a branch appears only inside an
`if` and matches the `if`'s join type. -/
def checkTerminal (env : List (String × IRType)) (resultType : IRType)
    (branchType : Option IRType) : TerminalInstruction → Bool
  | .return_ t e => IRType.beq t resultType && checkExpressionIs env e t
  | .branch t e =>
      match branchType with
      | some bt => IRType.beq t bt && checkExpressionIs env e t
      | none => false
  | .unreachable => true

/- Modelled from the spec: the one-pass structural checker over instruction
sequences (§4.2): each instruction's annotation is compared against the type
inferred from its inputs, a call's callee must have exactly the call's
function type with positionally matching arguments, indices must be in range,
and every bound name extends the environment for the instructions that
follow. -/
mutual

def checkInstructionList (env : List (String × IRType)) (resultType : IRType)
    (branchType : Option IRType) : List Instruction → TerminalInstruction → Bool
  | [], terminal => checkTerminal env resultType branchType terminal
  | .allocateStack t n :: rest, terminal =>
      checkInstructionList ((n, .pointer t) :: env) resultType branchType rest terminal
  | .call c :: rest, terminal =>
      checkExpressionIs env c.function c.type.toType &&
        checkExpressionList env c.arguments c.type.arguments &&
        checkInstructionList ((c.name, c.type.result) :: env) resultType branchType rest terminal
  | .deconstructRecord t e i n :: rest, terminal =>
      (match t with
        | .record fieldTypes => decide (i < fieldTypes.length)
        | _ => false) &&
        checkExpressionIs env e t &&
        checkInstructionList ((n, recordFieldType t i) :: env) resultType branchType rest terminal
  | .if_ t condition thenBlock elseBlock n :: rest, terminal =>
      checkExpressionIs env condition (.primitive .boolean) &&
        checkBlock env resultType (some t) thenBlock &&
        checkBlock env resultType (some t) elseBlock &&
        checkInstructionList ((n, t) :: env) resultType branchType rest terminal
  | .load t p n :: rest, terminal =>
      checkExpressionIs env p (.pointer t) &&
        checkInstructionList ((n, t) :: env) resultType branchType rest terminal
  | .memoryCopy s d z :: rest, terminal =>
      checkExpressionIs env s (.pointer (.primitive .integer8)) &&
        checkExpressionIs env d (.pointer (.primitive .integer8)) &&
        checkExpressionIs env z (.primitive .pointerInteger) &&
        checkInstructionList env resultType branchType rest terminal
  | .passThrough t e n :: rest, terminal =>
      checkExpressionIs env e t &&
        checkInstructionList ((n, t) :: env) resultType branchType rest terminal
  | .store t v p :: rest, terminal =>
      checkExpressionIs env v t && checkExpressionIs env p (.pointer t) &&
        checkInstructionList env resultType branchType rest terminal

def checkBlock (env : List (String × IRType)) (resultType : IRType)
    (branchType : Option IRType) : Block → Bool
  | .mk is terminal => checkInstructionList env resultType branchType is terminal

end

/-- Modelled from the spec: the module-level name environment seeded by
module-level declarations and definitions (§4.2); global variables are in
scope at pointer type. -/
def moduleEnvironment (m : IRModule) : List (String × IRType) :=
  m.variableDeclarations.map (fun d => (d.name, .pointer d.type)) ++
    m.functionDeclarations.map (fun d => (d.name, d.type.toType)) ++
    m.variableDefinitions.map (fun d => (d.name, .pointer d.type)) ++
    m.functionDefinitions.map (fun d => (d.name, d.type.toType))

def checkFunctionDefinition (m : IRModule) (d : FunctionDefinition) : Bool :=
  checkBlock (d.arguments.map (fun a => (a.name, a.type)) ++ moduleEnvironment m)
    d.resultType none d.body

/-- Modelled from the spec: the type checker (§4.2), validating every
variable definition's body and every function definition's body against the
module environment.  It reports success as a boolean; both transforms run it
on input and output. -/
def typeCheck (m : IRModule) : Bool :=
  m.variableDefinitions.all
    (fun d => checkExpressionIs (moduleEnvironment m) d.body d.type) &&
    m.functionDefinitions.all (fun d => checkFunctionDefinition m d)

/-! The CPS transformation of Source-convention functions, embedded from
src/fmm/src/analysis/cps/source_function.rs. -/

/-- Modelled from the spec: the runtime stack handle type `_s` (§4.4), an
opaque pointer managed by the runtime. -/
def stackType : IRType := .pointer (.primitive .integer8)

/-- Modelled from the spec: continuation_type::compile (absent from src/) —
the continuation for a frame producing `R` has type
`fn(stack, R) → RT` under the Tail convention (§4.4). -/
def continuationTypeCompile (resultType finalResultType : IRType) : FunctionType :=
  ⟨[stackType, resultType], finalResultType, .tail⟩

/-- Modelled from the spec: stack::push (absent from src/) — a
stack-discipline primitive that stores a value onto the runtime stack
(§4.4, §6).  It is represented as a single store through the stack handle;
the names used by the real lowering are irrelevant to every claim, which
only inspects the pushed value and its type. -/
def stackPushInstructions (stack : Expression) (type : IRType)
    (value : Expression) : List Instruction :=
  [.store type value (.bitCast stackType (.pointer type) stack)]

/-- The state threaded through the Source-function transformation: the
"_k"-prefixed name-generator counter and the synthesized continuation
definitions accumulated so far. -/
structure SfState where
  counter : Nat
  functionDefinitions : List FunctionDefinition

/-- Modelled from the spec: the name generator (§4.1) — a prefix and a
counter advanced on every fetch; the CPS context's generator uses the
prefix "_k_". -/
def generateName (st : SfState) : String × SfState :=
  ("_k_" ++ toString st.counter, { st with counter := st.counter + 1 })

/-- Modelled from the spec: stack::pop (absent from src/) — the
stack-discipline primitive inverse to push (§4.4), represented as a load
through the stack handle binding a generated name. -/
def stackPopInstructions (st : SfState) (stack : Expression) (type : IRType) :
    SfState × List Instruction × Expression :=
  let (n, st) := generateName st
  (st, [.load type (.bitCast stackType (.pointer type) stack) n], .variable n)

/-- transform_call: prepend the stack variable `_s` and the continuation to
the arguments and rebind the result name; the call's type is untouched. -/
def transformCall (c : Call) (continuationName : String) (resultName : String) : Call :=
  { c with
    arguments := .variable "_s" :: .variable continuationName :: c.arguments,
    name := resultName }

/-- get_environment_record: the record of the environment's variables, typed
by the environment's types. -/
def getEnvironmentRecordType (environment : List (String × IRType)) : IRType :=
  .record (environment.map Prod.snd)

def getEnvironmentRecord (environment : List (String × IRType)) : Expression :=
  .record (getEnvironmentRecordType environment)
    (environment.map (fun p => .variable p.fst))

/-- get_continuation_environment: `_k` chained with the names free in the
remaining instructions and terminal, minus the call's own result name,
restricted to (and typed by) the local-variable environment. -/
def getContinuationEnvironment (c : Call) (instructions : List Instruction)
    (terminal : TerminalInstruction) (localVariables : List (String × IRType)) :
    List (String × IRType) :=
  (("_k" :: freeVariableCollect instructions terminal).filter (fun n => n ≠ c.name)).filterMap
    (fun n => (localVariables.lookup n).map (fun t => (n, t)))

/-- create_continuation: emit the split continuation as a new top-level
function with the Tail convention and internal linkage; its body pops the
environment record, deconstructs each field in order to rebind the
environment's names, then runs the already-transformed remaining block. -/
def createContinuation (finalResultType : IRType) (st : SfState) (name : String)
    (argument : Argument) (environment : List (String × IRType)) (block : Block) : SfState :=
  let recordType := getEnvironmentRecordType environment
  let (st, popInstructions, popExpression) :=
    stackPopInstructions st (.variable "_s") recordType
  let deconstructions := environment.enum.map
    (fun p => Instruction.deconstructRecord recordType popExpression p.1 p.2.1)
  { st with
    functionDefinitions := st.functionDefinitions ++
      [{ name := name,
         arguments := [⟨"_s", stackType⟩, argument],
         resultType := finalResultType,
         body := .mk (popInstructions ++ deconstructions ++ block.instructions)
           block.terminalInstruction,
         options := ⟨false, .tail, .internal⟩ }] }

/-- Tail-position test used by transform_block: the terminal returns exactly
the variable naming the call's result. -/
def isTailReturn (terminal : TerminalInstruction) (callName : String) : Bool :=
  match terminal with
  | .return_ _ (.variable n) => n = callName
  | _ => false

/- transform_block together with the worklist of
transform_block_recursively, realized as direct structural recursion: a
Source-convention call in tail position is rewritten in place and ends the
block; a non-tail Source call pushes the continuation environment, is
rewritten to take a fresh continuation name, and the remaining instructions
and terminal are transformed recursively and then emitted as the
continuation's body via create_continuation; with no Source call left, a
Return terminal is rewritten into a call of `_k`.  Relative to the Rust
worklist only the counter draws for pop names and the order in which
continuation definitions are appended can differ, and only on blocks with
two or more splits. -/
mutual

def transformInstructions (finalResultType : IRType)
    (localVariables : List (String × IRType)) (st : SfState) :
    List Instruction → TerminalInstruction → SfState × Block
  | [], terminal =>
      match terminal with
      | .return_ resultType resultExpression =>
          let (resultName, st) := generateName st
          (st, .mk
            [.call ⟨continuationTypeCompile resultType finalResultType, .variable "_k",
              [.variable "_s", resultExpression], resultName⟩]
            (.return_ finalResultType (.variable resultName)))
      | terminal => (st, .mk [] terminal)
  | .call c :: rest, terminal =>
      if c.type.callingConvention = .source then
        let (resultName, st) := generateName st
        if rest.isEmpty && isTailReturn terminal c.name then
          (st, .mk [.call (transformCall c "_k" resultName)]
            (.return_ finalResultType (.variable resultName)))
        else
          let environment := getContinuationEnvironment c rest terminal localVariables
          let pushInstructions := stackPushInstructions (.variable "_s")
            (getEnvironmentRecordType environment) (getEnvironmentRecord environment)
          let (continuationName, st) := generateName st
          let (st, continuationBlock) :=
            transformInstructions finalResultType localVariables st rest terminal
          let st := createContinuation finalResultType st continuationName
            ⟨c.name, c.type.result⟩ environment continuationBlock
          (st, .mk (pushInstructions ++ [.call (transformCall c continuationName resultName)])
            (.return_ finalResultType (.variable resultName)))
      else
        let (st, b) := transformInstructions finalResultType localVariables st rest terminal
        (st, .mk (.call c :: b.instructions) b.terminalInstruction)
  | .if_ t condition thenBlock elseBlock n :: rest, terminal =>
      let (st, thenBlock2) := transformBlockRecursively finalResultType localVariables st thenBlock
      let (st, elseBlock2) := transformBlockRecursively finalResultType localVariables st elseBlock
      let (st, b) := transformInstructions finalResultType localVariables st rest terminal
      (st, .mk (.if_ t condition thenBlock2 elseBlock2 n :: b.instructions)
        b.terminalInstruction)
  | i :: rest, terminal =>
      let (st, b) := transformInstructions finalResultType localVariables st rest terminal
      (st, .mk (i :: b.instructions) b.terminalInstruction)

def transformBlockRecursively (finalResultType : IRType)
    (localVariables : List (String × IRType)) (st : SfState) : Block → SfState × Block
  | .mk is terminal => transformInstructions finalResultType localVariables st is terminal

end

/-- transform_function_definition: a definition that is not of the Source
convention is returned unchanged; a Source-convention definition receives
the `_s` and `_k` arguments, the configured final result type, the Tail
convention, and its body is transformed with the local-variable environment
extended by `_k` at the continuation type. -/
def transformFunctionDefinition (finalResultType : IRType) (st : SfState)
    (d : FunctionDefinition) : SfState × FunctionDefinition :=
  if d.options.callingConvention = .source then
    let continuationType := (continuationTypeCompile d.resultType finalResultType).toType
    let d1 : FunctionDefinition :=
      { d with
        arguments := ⟨"_s", stackType⟩ :: ⟨"_k", continuationType⟩ :: d.arguments,
        resultType := finalResultType,
        options := { d.options with callingConvention := .tail } }
    let localVariables := ("_k", continuationType) :: localVariableCollect d1
    let (st, body) := transformBlockRecursively finalResultType localVariables st d1.body
    (st, { d1 with body := body })
  else
    (st, d)

def transformDefinitionList (finalResultType : IRType) (st : SfState) :
    List FunctionDefinition → SfState × List FunctionDefinition
  | [] => (st, [])
  | d :: ds =>
      let (st, d2) := transformFunctionDefinition finalResultType st d
      let (st, ds2) := transformDefinitionList finalResultType st ds
      (st, d2 :: ds2)

/-- source_function::transform over a module: transform every function
definition in order, then append the synthesized continuation definitions. -/
def sourceFunctionTransform (finalResultType : IRType) (m : IRModule) : IRModule :=
  let (st, defs) := transformDefinitionList finalResultType ⟨0, []⟩ m.functionDefinitions
  { m with functionDefinitions := defs ++ st.functionDefinitions }

/-! The Target-convention companion pass, embedded from
src/fmm/src/analysis/cps/target_function_compiler.rs: callers of Source
functions inside Target-convention functions are bridged into CPS by
synthesizing a fresh stack, a result slot and a one-shot continuation. -/

/-- The state threaded through the companion pass: the "_cps_"-prefixed
name-generator counter and the synthesized continuation definitions. -/
structure TfState where
  counter : Nat
  functionDefinitions : List FunctionDefinition

def generateCpsName (st : TfState) : String × TfState :=
  ("_cps_" ++ toString st.counter, { st with counter := st.counter + 1 })

/-- Modelled from the spec: stack::create_stack (absent from src/) — the
companion pass synthesizes a fresh runtime stack (§4.4); represented as a
stack allocation producing the opaque stack handle. -/
def createStackInstructions (st : TfState) : TfState × List Instruction × Expression :=
  let (n, st) := generateCpsName st
  (st, [.allocateStack (.primitive .integer8) n], .variable n)

/-- Modelled from the spec: stack::destroy_stack (absent from src/) — the
runtime releases the synthesized stack; no IR instruction of the embedded
subset observes it, so it contributes none. -/
def destroyStackInstructions : List Instruction := []

/-- Modelled from the spec: stack::pop_from_stack for the companion pass,
as stackPopInstructions but drawing from the "_cps_" generator. -/
def cpsPopInstructions (st : TfState) (stack : Expression) (type : IRType) :
    TfState × List Instruction × Expression :=
  let (n, st) := generateCpsName st
  (st, [.load type (.bitCast stackType (.pointer type) stack) n], .variable n)

/-- compile_continuation: synthesize the one-shot continuation that pops the
result-slot pointer and stores the produced value through it. -/
def compileBridgeContinuation (finalResultType : IRType) (st : TfState)
    (resultType : IRType) : TfState × String :=
  let (name, st) := generateCpsName st
  let (st, popInstructions, popExpression) :=
    cpsPopInstructions st (.variable "stack") (.pointer resultType)
  let definition : FunctionDefinition :=
    { name := name,
      arguments := [⟨"stack", stackType⟩, ⟨"result", resultType⟩],
      resultType := finalResultType,
      body := .mk (popInstructions ++ [.store resultType (.variable "result") popExpression])
        (.return_ finalResultType (.undefined finalResultType)),
      options := ⟨true, .tail, .internal⟩ }
  ({ st with functionDefinitions := st.functionDefinitions ++ [definition] }, name)

/-- compile_source_function_call: create a stack, allocate a result slot,
push the slot, call the Source function with the fresh stack and a one-shot
continuation prepended to its arguments, load the slot and pass the value
through to the original result name. -/
def compileSourceFunctionCall (finalResultType : IRType) (st : TfState) (c : Call) :
    TfState × List Instruction :=
  let (st, createInstructions, stackExpression) := createStackInstructions st
  let (slotName, st) := generateCpsName st
  let slotExpression : Expression := .variable slotName
  let pushInstructions := stackPushInstructions stackExpression
    (.pointer c.type.result) slotExpression
  let (st, continuationName) := compileBridgeContinuation finalResultType st c.type.result
  let (callName, st) := generateCpsName st
  let (loadName, st) := generateCpsName st
  (st,
    createInstructions ++ [.allocateStack c.type.result slotName] ++ pushInstructions ++
      [.call ⟨c.type, c.function,
        stackExpression :: .variable continuationName :: c.arguments, callName⟩,
       .load c.type.result slotExpression loadName] ++
      destroyStackInstructions ++
      [.passThrough c.type.result (.variable loadName) c.name])

/- compile_instruction / compile_block of the companion pass: rewrite every
Source-convention call, recurse into both arms of an if, and keep every
other instruction. -/
mutual

def compileInstructionList (finalResultType : IRType) (st : TfState) :
    List Instruction → TfState × List Instruction
  | [] => (st, [])
  | .call c :: rest =>
      if c.type.callingConvention = .source then
        let (st, instructions) := compileSourceFunctionCall finalResultType st c
        let (st, rest2) := compileInstructionList finalResultType st rest
        (st, instructions ++ rest2)
      else
        let (st, rest2) := compileInstructionList finalResultType st rest
        (st, .call c :: rest2)
  | .if_ t condition thenBlock elseBlock n :: rest =>
      let (st, thenBlock2) := compileBridgeBlock finalResultType st thenBlock
      let (st, elseBlock2) := compileBridgeBlock finalResultType st elseBlock
      let (st, rest2) := compileInstructionList finalResultType st rest
      (st, .if_ t condition thenBlock2 elseBlock2 n :: rest2)
  | i :: rest =>
      let (st, rest2) := compileInstructionList finalResultType st rest
      (st, i :: rest2)

def compileBridgeBlock (finalResultType : IRType) (st : TfState) : Block → TfState × Block
  | .mk is terminal =>
      let (st, is2) := compileInstructionList finalResultType st is
      (st, .mk is2 terminal)

end

/-- compile_definition: only Target-convention definitions are traversed. -/
def compileBridgeDefinition (finalResultType : IRType) (st : TfState)
    (d : FunctionDefinition) : TfState × FunctionDefinition :=
  if d.options.callingConvention = .target then
    let (st, body) := compileBridgeBlock finalResultType st d.body
    (st, { d with body := body })
  else
    (st, d)

def compileBridgeDefinitionList (finalResultType : IRType) (st : TfState) :
    List FunctionDefinition → TfState × List FunctionDefinition
  | [] => (st, [])
  | d :: ds =>
      let (st, d2) := compileBridgeDefinition finalResultType st d
      let (st, ds2) := compileBridgeDefinitionList finalResultType st ds
      (st, d2 :: ds2)

/-- The companion pass over a module: compile every function definition,
then append the synthesized one-shot continuations. -/
def targetFunctionCompile (finalResultType : IRType) (m : IRModule) : IRModule :=
  let (st, defs) := compileBridgeDefinitionList finalResultType ⟨0, []⟩ m.functionDefinitions
  { m with functionDefinitions := defs ++ st.functionDefinitions }

/-! The CPS function-type conversion pass. -/

/- Modelled from the spec: the function-type conversion of the cps driver
(absent from src/) — after the body transformations, every function type of
the Source convention anywhere in the module is rewritten into its CPS form:
the stack and the continuation type are prepended to its arguments, the
result becomes the configured final result type and the convention becomes
Tail (§4.4, §8). -/
mutual

def cpsType (finalResultType : IRType) : IRType → IRType
  | .primitive p => .primitive p
  | .pointer t => .pointer (cpsType finalResultType t)
  | .record fields => .record (cpsTypeList finalResultType fields)
  | .union members => .union (cpsTypeList finalResultType members)
  | .function arguments result cc =>
      let arguments := cpsTypeList finalResultType arguments
      let result := cpsType finalResultType result
      if cc = .source then
        .function
          (stackType :: .function [stackType, result] finalResultType .tail :: arguments)
          finalResultType .tail
      else
        .function arguments result cc

def cpsTypeList (finalResultType : IRType) : List IRType → List IRType
  | [] => []
  | t :: ts => cpsType finalResultType t :: cpsTypeList finalResultType ts

end

def cpsFunctionType (finalResultType : IRType) (f : FunctionType) : FunctionType :=
  match cpsType finalResultType f.toType with
  | .function arguments result cc => ⟨arguments, result, cc⟩
  | _ => f

mutual

def cpsExpression (finalResultType : IRType) : Expression → Expression
  | .variable n => .variable n
  | .primitive l => .primitive l
  | .undefined t => .undefined (cpsType finalResultType t)
  | .record t fields => .record (cpsType finalResultType t) (cpsExpressionList finalResultType fields)
  | .bitCast s d e =>
      .bitCast (cpsType finalResultType s) (cpsType finalResultType d)
        (cpsExpression finalResultType e)
  | .arithmeticOperation t o l r =>
      .arithmeticOperation t o (cpsExpression finalResultType l) (cpsExpression finalResultType r)
  | .comparisonOperation t o l r =>
      .comparisonOperation t o (cpsExpression finalResultType l) (cpsExpression finalResultType r)

def cpsExpressionList (finalResultType : IRType) : List Expression → List Expression
  | [] => []
  | e :: es => cpsExpression finalResultType e :: cpsExpressionList finalResultType es

end

def cpsTerminal (finalResultType : IRType) : TerminalInstruction → TerminalInstruction
  | .return_ t e => .return_ (cpsType finalResultType t) (cpsExpression finalResultType e)
  | .branch t e => .branch (cpsType finalResultType t) (cpsExpression finalResultType e)
  | .unreachable => .unreachable

mutual

def cpsInstruction (finalResultType : IRType) : Instruction → Instruction
  | .allocateStack t n => .allocateStack (cpsType finalResultType t) n
  | .call c =>
      .call ⟨cpsFunctionType finalResultType c.type, cpsExpression finalResultType c.function,
        cpsExpressionList finalResultType c.arguments, c.name⟩
  | .deconstructRecord t e i n =>
      .deconstructRecord (cpsType finalResultType t) (cpsExpression finalResultType e) i n
  | .if_ t condition thenBlock elseBlock n =>
      .if_ (cpsType finalResultType t) (cpsExpression finalResultType condition)
        (cpsBlock finalResultType thenBlock) (cpsBlock finalResultType elseBlock) n
  | .load t p n => .load (cpsType finalResultType t) (cpsExpression finalResultType p) n
  | .memoryCopy s d z =>
      .memoryCopy (cpsExpression finalResultType s) (cpsExpression finalResultType d)
        (cpsExpression finalResultType z)
  | .passThrough t e n =>
      .passThrough (cpsType finalResultType t) (cpsExpression finalResultType e) n
  | .store t v p =>
      .store (cpsType finalResultType t) (cpsExpression finalResultType v)
        (cpsExpression finalResultType p)

def cpsInstructionList (finalResultType : IRType) : List Instruction → List Instruction
  | [] => []
  | i :: is => cpsInstruction finalResultType i :: cpsInstructionList finalResultType is

def cpsBlock (finalResultType : IRType) : Block → Block
  | .mk is terminal =>
      .mk (cpsInstructionList finalResultType is) (cpsTerminal finalResultType terminal)

end

def cpsDefinitionTypes (finalResultType : IRType) (d : FunctionDefinition) :
    FunctionDefinition :=
  { d with
    arguments := d.arguments.map (fun a => ⟨a.name, cpsType finalResultType a.type⟩),
    resultType := cpsType finalResultType d.resultType,
    body := cpsBlock finalResultType d.body }

def cpsModuleTypes (finalResultType : IRType) (m : IRModule) : IRModule :=
  { variableDeclarations :=
      m.variableDeclarations.map (fun d => ⟨d.name, cpsType finalResultType d.type⟩),
    functionDeclarations :=
      m.functionDeclarations.map (fun d => ⟨d.name, cpsFunctionType finalResultType d.type⟩),
    variableDefinitions :=
      m.variableDefinitions.map
        (fun d => ⟨d.name, cpsExpression finalResultType d.body, cpsType finalResultType d.type⟩),
    functionDefinitions :=
      m.functionDefinitions.map (cpsDefinitionTypes finalResultType) }

/-- Modelled from the spec: the CPS error kinds (§7). -/
inductive CpsError where
  | typeCheck
  | build
deriving DecidableEq

/-- Modelled from the spec: the cps driver (§2, §6; its own file is absent
from src/) — type-check the input, bridge Source calls inside
Target-convention functions, transform Source-convention functions, convert
the remaining Source function types, and type-check the output. -/
def cpsTransform (finalResultType : IRType) (m : IRModule) : Except CpsError IRModule :=
  if typeCheck m then
    let m1 := targetFunctionCompile finalResultType m
    let m2 := sourceFunctionTransform finalResultType m1
    let m3 := cpsModuleTypes finalResultType m2
    if typeCheck m3 then .ok m3 else .error .typeCheck
  else
    .error .typeCheck

/-! The C calling-convention transformation, embedded from
src/fmm/src/analysis/c_calling_convention.rs. -/

/- Modelled from the spec: type sizes for the ABI classification (§4.3,
glossary) — primitive sizes are the usual ones, pointers and functions take
a word, records take the sum and unions the maximum of their members. -/
mutual

def typeSize (wordBytes : Nat) : IRType → Nat
  | .primitive .boolean => 1
  | .primitive .integer8 => 1
  | .primitive .integer32 => 4
  | .primitive .integer64 => 8
  | .primitive .float32 => 4
  | .primitive .float64 => 8
  | .primitive .pointerInteger => wordBytes
  | .pointer _ => wordBytes
  | .record fields => typeSizeSum wordBytes fields
  | .union members => typeSizeMax wordBytes members
  | .function _ _ _ => wordBytes

def typeSizeSum (wordBytes : Nat) : List IRType → Nat
  | [] => 0
  | t :: ts => typeSize wordBytes t + typeSizeSum wordBytes ts

def typeSizeMax (wordBytes : Nat) : List IRType → Nat
  | [] => 0
  | t :: ts => max (typeSize wordBytes t) (typeSizeMax wordBytes ts)

end

/-- Modelled from the spec: the memory-return classification (§4.3,
glossary) — a record result larger than two machine words is returned
through a caller-provided pointer. -/
def isMemoryClass (wordBytes : Nat) : IRType → Bool
  | .record fields => decide (2 * wordBytes < typeSizeSum wordBytes fields)
  | _ => false

/-- Modelled from the spec: type_::transform_function (absent from src/) —
a function type with a memory-returning record result takes the out-pointer
as its final argument and returns void (§4.3, trailing position per §9);
other function types are unchanged. -/
def transformFunctionTypeC (wordBytes : Nat) (f : FunctionType) : FunctionType :=
  if isMemoryClass wordBytes f.result then
    ⟨f.arguments ++ [.pointer f.result], voidType, f.callingConvention⟩
  else
    f

/-- Modelled from the spec: function_declaration::transform (absent from
src/) — rewrite the type of every Target-convention declaration with a
memory-returning record result (§4.3). -/
def transformFunctionDeclarationC (wordBytes : Nat) (d : FunctionDeclaration) :
    FunctionDeclaration :=
  if d.type.callingConvention = .target then
    ⟨d.name, transformFunctionTypeC wordBytes d.type⟩
  else
    d

/- Modelled from the spec: the return rewrite of
function_definition::transform (absent from src/) — every
`return(R, e)` becomes `store(R, e, p); return(void, void_value)`, applied
recursively through if arms (§4.3). -/
mutual

def rewriteReturnsInstructionList (resultType : IRType) (pointerName : String) :
    List Instruction → List Instruction
  | [] => []
  | .if_ t condition thenBlock elseBlock n :: rest =>
      .if_ t condition (rewriteReturnsBlock resultType pointerName thenBlock)
          (rewriteReturnsBlock resultType pointerName elseBlock) n ::
        rewriteReturnsInstructionList resultType pointerName rest
  | i :: rest => i :: rewriteReturnsInstructionList resultType pointerName rest

def rewriteReturnsBlock (resultType : IRType) (pointerName : String) : Block → Block
  | .mk is terminal =>
      let is := rewriteReturnsInstructionList resultType pointerName is
      match terminal with
      | .return_ _ e =>
          .mk (is ++ [.store resultType e (.variable pointerName)])
            (.return_ voidType voidValue)
      | terminal => .mk is terminal

end

/-- Modelled from the spec: function_definition::transform (absent from
src/) — a Target-convention definition with a memory-returning record
result receives the out-pointer argument `{name}.p` in trailing position
(per §9), a void result type, and its returns are rewritten into stores
(§4.3). -/
def transformFunctionDefinitionshapeC (wordBytes : Nat) (d : FunctionDefinition) :
    FunctionDefinition :=
  if d.options.callingConvention = .target && isMemoryClass wordBytes d.resultType then
    let pointerName := d.name ++ ".p"
    { d with
      arguments := d.arguments ++ [⟨pointerName, .pointer d.resultType⟩],
      resultType := voidType,
      body := rewriteReturnsBlock d.resultType pointerName d.body }
  else
    d

/-- transform_instruction: every Call of the Target convention whose callee
is a variable reference is replaced by an allocation of a stack slot under
the fresh "{name}_c_" prefix, a call of the callee at the rewritten type
with the pointer appended to the arguments and the unused result bound to
the next fresh name, and a load of the result into the original name; any
other callee shape, and every other instruction, is kept unchanged. -/
def transformInstructionC (wordBytes : Nat) (i : Instruction) : List Instruction :=
  match i with
  | .call c =>
      if c.type.callingConvention = .target then
        match c.function with
        | .variable v =>
            let pointerName := c.name ++ "_c_0"
            [.allocateStack c.type.result pointerName,
             .call ⟨transformFunctionTypeC wordBytes c.type, .variable v,
               c.arguments ++ [.variable pointerName], c.name ++ "_c_1"⟩,
             .load c.type.result (.variable pointerName) c.name]
        | _ => [.call c]
      else
        [.call c]
  | i => [i]

/-- transform_block of the C calling-convention transformation: concatenate
the per-instruction rewrites; the terminal is unchanged and, as in the
source, if arms are not traversed. -/
def transformBlockC (wordBytes : Nat) : Block → Block
  | .mk is terminal => .mk (is.flatMap (transformInstructionC wordBytes)) terminal

def transformFunctionDefinitionC (wordBytes : Nat) (d : FunctionDefinition) :
    FunctionDefinition :=
  { d with body := transformBlockC wordBytes d.body }

/-- Modelled from the spec: the C calling-convention error kinds (§7),
including the UnsupportedCalleeShape kind the spec introduces in §9. -/
inductive CCallingConventionError where
  | typeCheck
  | wordSize (wordBytes : Nat)
  | build
  | unsupportedCalleeShape
deriving DecidableEq

/-- c_calling_convention::transform: reject a word size other than 4 or 8,
type-check the input, rewrite declarations, definition shapes and call
sites, and type-check the output. -/
def cCallingConventionTransform (m : IRModule) (wordBytes : Nat) :
    Except CCallingConventionError IRModule :=
  if wordBytes ≠ 4 ∧ wordBytes ≠ 8 then
    .error (.wordSize wordBytes)
  else if typeCheck m then
    let m2 : IRModule :=
      { variableDeclarations := m.variableDeclarations,
        functionDeclarations :=
          m.functionDeclarations.map (transformFunctionDeclarationC wordBytes),
        variableDefinitions := m.variableDefinitions,
        functionDefinitions :=
          m.functionDefinitions.map
            (fun d => transformFunctionDefinitionC wordBytes
              (transformFunctionDefinitionshapeC wordBytes d)) }
    if typeCheck m2 then .ok m2 else .error .typeCheck
  else
    .error .typeCheck

/-! Observation helpers used to state the claims: the calls of a module, the
environment records pushed onto the runtime stack, and cleanliness scanners
for the identity properties. -/

mutual

def instructionListCalls : List Instruction → List Call
  | [] => []
  | .call c :: rest => c :: instructionListCalls rest
  | .if_ _ _ thenBlock elseBlock _ :: rest =>
      blockCalls thenBlock ++ blockCalls elseBlock ++ instructionListCalls rest
  | _ :: rest => instructionListCalls rest

def blockCalls : Block → List Call
  | .mk is _ => instructionListCalls is

end

def moduleCalls (m : IRModule) : List Call :=
  m.functionDefinitions.flatMap (fun d => blockCalls d.body)

def expressionVariableName : Expression → String
  | .variable n => n
  | _ => ""

/- The names of the fields of every environment record pushed onto the
runtime stack `_s` (in the push representation of stackPushInstructions),
in order of appearance. -/
mutual

def instructionListEnvironmentPushes : List Instruction → List (List String)
  | [] => []
  | .store _ (.record _ fields) (.bitCast _ _ (.variable s)) :: rest =>
      if s = "_s" then
        fields.map expressionVariableName :: instructionListEnvironmentPushes rest
      else
        instructionListEnvironmentPushes rest
  | .if_ _ _ thenBlock elseBlock _ :: rest =>
      blockEnvironmentPushes thenBlock ++ blockEnvironmentPushes elseBlock ++
        instructionListEnvironmentPushes rest
  | _ :: rest => instructionListEnvironmentPushes rest

def blockEnvironmentPushes : Block → List (List String)
  | .mk is _ => instructionListEnvironmentPushes is

end

def moduleEnvironmentPushes (m : IRModule) : List (List String) :=
  m.functionDefinitions.flatMap (fun d => blockEnvironmentPushes d.body)

/-! Scanners for modules containing no Source calling conventions. -/

mutual

def noSourceTypeB : IRType → Bool
  | .primitive _ => true
  | .pointer t => noSourceTypeB t
  | .record fields => noSourceTypeListB fields
  | .union members => noSourceTypeListB members
  | .function arguments result cc =>
      (cc ≠ .source) && noSourceTypeListB arguments && noSourceTypeB result

def noSourceTypeListB : List IRType → Bool
  | [] => true
  | t :: ts => noSourceTypeB t && noSourceTypeListB ts

end

mutual

def noSourceExpressionB : Expression → Bool
  | .variable _ => true
  | .primitive _ => true
  | .undefined t => noSourceTypeB t
  | .record t fields => noSourceTypeB t && noSourceExpressionListB fields
  | .bitCast s d e => noSourceTypeB s && noSourceTypeB d && noSourceExpressionB e
  | .arithmeticOperation _ _ l r => noSourceExpressionB l && noSourceExpressionB r
  | .comparisonOperation _ _ l r => noSourceExpressionB l && noSourceExpressionB r

def noSourceExpressionListB : List Expression → Bool
  | [] => true
  | e :: es => noSourceExpressionB e && noSourceExpressionListB es

end

def noSourceTerminalB : TerminalInstruction → Bool
  | .return_ t e => noSourceTypeB t && noSourceExpressionB e
  | .branch t e => noSourceTypeB t && noSourceExpressionB e
  | .unreachable => true

mutual

def noSourceInstructionB : Instruction → Bool
  | .allocateStack t _ => noSourceTypeB t
  | .call c =>
      noSourceTypeB c.type.toType && noSourceExpressionB c.function &&
        noSourceExpressionListB c.arguments
  | .deconstructRecord t e _ _ => noSourceTypeB t && noSourceExpressionB e
  | .if_ t condition thenBlock elseBlock _ =>
      noSourceTypeB t && noSourceExpressionB condition && noSourceBlockB thenBlock &&
        noSourceBlockB elseBlock
  | .load t p _ => noSourceTypeB t && noSourceExpressionB p
  | .memoryCopy s d z =>
      noSourceExpressionB s && noSourceExpressionB d && noSourceExpressionB z
  | .passThrough t e _ => noSourceTypeB t && noSourceExpressionB e
  | .store t v p => noSourceTypeB t && noSourceExpressionB v && noSourceExpressionB p

def noSourceInstructionListB : List Instruction → Bool
  | [] => true
  | i :: is => noSourceInstructionB i && noSourceInstructionListB is

def noSourceBlockB : Block → Bool
  | .mk is terminal => noSourceInstructionListB is && noSourceTerminalB terminal

end

def noSourceDefinitionB (d : FunctionDefinition) : Bool :=
  (d.options.callingConvention ≠ .source) &&
    d.arguments.all (fun a => noSourceTypeB a.type) &&
    noSourceTypeB d.resultType && noSourceBlockB d.body

/-- A module contains no Source calling conventions: not as a definition
option and not inside any type annotation. -/
def noSourceModuleB (m : IRModule) : Bool :=
  m.variableDeclarations.all (fun d => noSourceTypeB d.type) &&
    m.functionDeclarations.all (fun d => noSourceTypeB d.type.toType) &&
    m.variableDefinitions.all (fun d => noSourceTypeB d.type && noSourceExpressionB d.body) &&
    m.functionDefinitions.all noSourceDefinitionB

/-! Scanners for modules containing no memory-returning Target results. -/

mutual

def noMemoryTargetInstructionB (wordBytes : Nat) : Instruction → Bool
  | .call c =>
      !(c.type.callingConvention = .target && isMemoryClass wordBytes c.type.result)
  | .if_ _ _ thenBlock elseBlock _ =>
      noMemoryTargetBlockB wordBytes thenBlock && noMemoryTargetBlockB wordBytes elseBlock
  | _ => true

def noMemoryTargetInstructionListB (wordBytes : Nat) : List Instruction → Bool
  | [] => true
  | i :: is =>
      noMemoryTargetInstructionB wordBytes i && noMemoryTargetInstructionListB wordBytes is

def noMemoryTargetBlockB (wordBytes : Nat) : Block → Bool
  | .mk is _ => noMemoryTargetInstructionListB wordBytes is

end

/-- A module contains no memory-returning Target results: no Target
declaration, definition or call has a record result of the memory class. -/
def noMemoryReturningTargetResults (m : IRModule) (wordBytes : Nat) : Bool :=
  m.functionDeclarations.all
    (fun d => !(d.type.callingConvention = .target && isMemoryClass wordBytes d.type.result)) &&
    m.functionDefinitions.all
      (fun d => !(d.options.callingConvention = .target &&
        isMemoryClass wordBytes d.resultType)) &&
    m.functionDefinitions.all (fun d => noMemoryTargetBlockB wordBytes d.body)

/-- No function body has a top-level Target-convention call whose callee is
a variable reference (the shape the call-site rewrite fires on; the
transform does not descend into if arms). -/
def noVariableCalleeTargetCall (m : IRModule) : Bool :=
  m.functionDefinitions.all (fun d =>
    d.body.instructions.all (fun i =>
      match i with
      | .call c =>
          match c.function with
          | .variable _ => c.type.callingConvention ≠ .target
          | _ => true
      | _ => true))

/-! Concrete modules used to instantiate and to refute the claims. -/

def float64Type : IRType := .primitive .float64

def integer64Type : IRType := .primitive .integer64

/-- A record of three 64-bit integers: 24 bytes, memory class at word size 8
(the specification's scenario 2 shape). -/
def tripleRecordType : IRType := .record [integer64Type, integer64Type, integer64Type]

def tripleFunctionType : IRType := .function [] tripleRecordType .target

/-- The module of the specification's scenario 4: a Source function whose
body is a tail call of itself. -/
def moduleScenario4 : IRModule :=
  ⟨[], [], [],
    [⟨"f", [], float64Type,
      .mk [.call ⟨⟨[], float64Type, .source⟩, .variable "f", [], "x"⟩]
        (.return_ float64Type (.variable "x")),
      ⟨true, .source, .external⟩⟩]⟩

/-- A scenario-5 shaped module: a Source function with a non-tail Source
call followed by a store through a pointer argument. -/
def moduleScenario5 : IRModule :=
  ⟨[], [⟨"g", ⟨[], float64Type, .source⟩⟩], [],
    [⟨"f", [⟨"p", .pointer float64Type⟩], float64Type,
      .mk [.call ⟨⟨[], float64Type, .source⟩, .variable "g", [], "x"⟩,
           .store float64Type (.variable "x") (.variable "p")]
        (.return_ float64Type (.variable "x")),
      ⟨true, .source, .external⟩⟩]⟩

/-- A well-typed module whose only Target call returns a register-class
result (a bare i64) through a variable callee. -/
def moduleC4Register : IRModule :=
  ⟨[], [⟨"f", ⟨[], integer64Type, .target⟩⟩], [],
    [⟨"g", [], integer64Type,
      .mk [.call ⟨⟨[], integer64Type, .target⟩, .variable "f", [], "x"⟩]
        (.return_ integer64Type (.variable "x")),
      ⟨true, .target, .external⟩⟩]⟩

/-- An ill-typed module free of Source conventions: the return type disagrees
with the function's result type. -/
def moduleC4IllTyped : IRModule :=
  ⟨[], [], [],
    [⟨"g", [], integer64Type, .mk [] (.return_ float64Type (.undefined float64Type)),
      ⟨true, .tail, .external⟩⟩]⟩

/-- A Target-convention function containing a call of a Source-convention
declaration. -/
def moduleC5 : IRModule :=
  ⟨[], [⟨"f", ⟨[], float64Type, .source⟩⟩], [],
    [⟨"g", [], float64Type,
      .mk [.call ⟨⟨[], float64Type, .source⟩, .variable "f", [], "x"⟩]
        (.return_ float64Type (.variable "x")),
      ⟨true, .target, .external⟩⟩]⟩

/-- A Source function that captures its argument "A" across a non-tail
Source call; "A" precedes "_k" lexicographically. -/
def moduleC8 : IRModule :=
  ⟨[], [⟨"g", ⟨[], float64Type, .source⟩⟩], [],
    [⟨"f", [⟨"A", float64Type⟩], float64Type,
      .mk [.call ⟨⟨[], float64Type, .source⟩, .variable "g", [], "x"⟩,
           .passThrough float64Type (.variable "A") "B"]
        (.return_ float64Type (.variable "B")),
      ⟨true, .source, .external⟩⟩]⟩

/-- A well-typed module whose only call has the Target convention, a
memory-returning record result and a non-variable callee expression. -/
def moduleC9 : IRModule :=
  ⟨[], [], [],
    [⟨"g", [], integer64Type,
      .mk [.call ⟨⟨[], tripleRecordType, .target⟩,
             .bitCast tripleFunctionType tripleFunctionType (.undefined tripleFunctionType),
             [], "x"⟩,
           .deconstructRecord tripleRecordType (.variable "x") 0 "y"]
        (.return_ integer64Type (.variable "y")),
      ⟨true, .target, .external⟩⟩]⟩

/-- A Source function whose non-tail Source call binds its result to the
name "_k" itself. -/
def moduleC10 : IRModule :=
  ⟨[], [], [],
    [⟨"f", [], float64Type,
      .mk [.call ⟨⟨[], float64Type, .source⟩, .variable "f", [], "_k"⟩] .unreachable,
      ⟨true, .source, .external⟩⟩]⟩

/-- The module a successful CPS transformation produces, or the empty module
on failure; the theorems below always establish success separately. -/
def cpsOutput (finalResultType : IRType) (m : IRModule) : IRModule :=
  match cpsTransform finalResultType m with
  | .ok m2 => m2
  | .error _ => ⟨[], [], [], []⟩

/-- An instruction that is neither a Source-convention call nor an `if`; the
block transformation moves such instructions through unchanged without
drawing names. -/
def plainInstruction : Instruction → Bool
  | .call c => c.type.callingConvention ≠ .source
  | .if_ _ _ _ _ _ => false
  | _ => true

/-- An instruction that is not a Source-convention call at the top level of
its block (an `if` may still contain some in its arms). -/
def notTopLevelSourceCall : Instruction → Bool
  | .call c => c.type.callingConvention ≠ .source
  | _ => true

/-! Supporting lemmas. -/

theorem Block.eta (b : Block) : Block.mk b.instructions b.terminalInstruction = b := by
  cases b
  rfl

@[simp]
theorem Block.instructions_mk (is : List Instruction) (t : TerminalInstruction) :
    (Block.mk is t).instructions = is := rfl

@[simp]
theorem Block.terminalInstruction_mk (is : List Instruction) (t : TerminalInstruction) :
    (Block.mk is t).terminalInstruction = t := rfl

theorem charLtB_asymm (a b : Char) (h : charLtB a b = true) : charLtB b a = false := by
  simp only [charLtB, decide_eq_true_eq] at h
  simp only [charLtB, decide_eq_false_iff_not]
  omega

theorem charListLtB_asymm :
    ∀ l1 l2, charListLtB l1 l2 = true → charListLtB l2 l1 = false := by
  intro l1
  induction l1 with
  | nil => intro l2 h; cases l2 with
    | nil => simp [charListLtB] at h
    | cons b bs => simp [charListLtB]
  | cons a as_ ih =>
      intro l2 h
      cases l2 with
      | nil => simp [charListLtB] at h
      | cons b bs =>
          simp only [charListLtB] at h ⊢
          by_cases hab : a = b
          · subst hab
            simp only [if_pos rfl] at h ⊢
            exact ih bs h
          · rw [if_neg hab] at h
            rw [if_neg (fun hba => hab hba.symm)]
            exact charLtB_asymm a b h

theorem stringLtB_asymm (a b : String) (h : stringLtB a b = true) : stringLtB b a = false :=
  charListLtB_asymm a.toList b.toList h

theorem lexSortedB_cons (x : String) (l : List String) (hx : lexSortedB (x :: l) = true) :
    lexSortedB l = true := by
  cases l with
  | nil => rfl
  | cons y ys =>
      simp only [lexSortedB, Bool.and_eq_true] at hx
      exact hx.2

theorem insertName_head (x : String) :
    ∀ l z zs, insertName x l = z :: zs → z = x ∨ ∃ t, l = z :: t := by
  intro l z zs h
  cases l with
  | nil =>
      simp only [insertName] at h
      cases h
      exact Or.inl rfl
  | cons y ys =>
      simp only [insertName] at h
      by_cases hyx : stringLtB y x = true
      · rw [if_pos hyx] at h
        cases h
        exact Or.inr ⟨ys, rfl⟩
      · rw [if_neg hyx] at h
        cases h
        exact Or.inl rfl

theorem insertName_sorted (x : String) :
    ∀ l, lexSortedB l = true → lexSortedB (insertName x l) = true := by
  intro l
  induction l with
  | nil => intro _; rfl
  | cons y ys ih =>
      intro h
      simp only [insertName]
      by_cases hyx : stringLtB y x = true
      · rw [if_pos hyx]
        have hys := ih (lexSortedB_cons y ys h)
        cases hr : insertName x ys with
        | nil => rfl
        | cons z zs =>
            have hzy : stringLtB z y = false := by
              rcases insertName_head x ys z zs hr with hz | ⟨t, hz⟩
              · subst hz
                exact stringLtB_asymm y z hyx
              · subst hz
                simp only [lexSortedB, Bool.and_eq_true, Bool.not_eq_true'] at h
                exact h.1
            rw [hr] at hys
            simp only [lexSortedB, Bool.and_eq_true, Bool.not_eq_true']
            exact ⟨hzy, hys⟩
      · rw [if_neg hyx]
        simp only [lexSortedB, Bool.and_eq_true, Bool.not_eq_true']
        exact ⟨by simpa using hyx, h⟩

theorem sortNames_sorted : ∀ l, lexSortedB (sortNames l) = true := by
  intro l
  induction l with
  | nil => rfl
  | cons x xs ih => exact insertName_sorted x (sortNames xs) ih

theorem filterMap_lookup_fst (f : String → Option IRType) :
    ∀ l : List String,
      (l.filterMap (fun n => (f n).map (fun t => (n, t)))).map Prod.fst =
        l.filter (fun n => (f n).isSome) := by
  intro l
  induction l with
  | nil => rfl
  | cons n ns ih =>
      simp only [List.filterMap_cons, List.filter_cons]
      cases hf : f n with
      | none => simpa [hf] using ih
      | some t => simpa [hf] using ih

theorem mem_filterMap_lookup (f : String → Option IRType) :
    ∀ (l : List String) (n : String) (T : IRType), n ∈ l → f n = some T →
      (n, T) ∈ l.filterMap (fun n => (f n).map (fun t => (n, t))) := by
  intro l
  induction l with
  | nil => intro n T hn; cases hn
  | cons m ms ih =>
      intro n T hn hf
      simp only [List.filterMap_cons]
      rcases List.mem_cons.mp hn with hn | hn
      · subst hn
        rw [hf]
        exact List.mem_cons_self _ _
      · cases hm : f m with
        | none => exact ih n T hn hf
        | some t => exact List.mem_cons_of_mem _ (ih n T hn hf)

theorem transformInstructions_plain_skip (finalResultType : IRType)
    (localVariables : List (String × IRType)) :
    ∀ (pre : List Instruction) (st : SfState) (rest : List Instruction)
      (terminal : TerminalInstruction),
      (∀ i ∈ pre, plainInstruction i = true) →
      transformInstructions finalResultType localVariables st (pre ++ rest) terminal =
        ((transformInstructions finalResultType localVariables st rest terminal).1,
          .mk (pre ++
              (transformInstructions finalResultType localVariables st rest terminal).2.instructions)
            (transformInstructions finalResultType localVariables st rest terminal).2.terminalInstruction) := by
  intro pre
  induction pre with
  | nil =>
      intro st rest terminal _
      simp only [List.nil_append]
      rw [Block.eta]
  | cons i is ih =>
      intro st rest terminal h
      have hi : plainInstruction i = true := h i (List.mem_cons_self _ _)
      have his : ∀ j ∈ is, plainInstruction j = true :=
        fun j hj => h j (List.mem_cons_of_mem _ hj)
      cases i with
      | call c =>
          have hcc : (c.type.callingConvention = CallingConvention.source) = False := by
            simp only [plainInstruction, ne_eq, decide_not] at hi
            simpa using hi
          simp only [List.cons_append, transformInstructions, List.append_eq, eq_iff_iff, iff_false] at hcc ⊢
          rw [if_neg hcc, ih st rest terminal his]
          simp
      | if_ t condition thenBlock elseBlock n =>
          simp [plainInstruction] at hi
      | allocateStack t n =>
          simp only [List.cons_append, transformInstructions, List.append_eq]
          rw [ih st rest terminal his]
          simp
      | deconstructRecord t e j n =>
          simp only [List.cons_append, transformInstructions, List.append_eq]
          rw [ih st rest terminal his]
          simp
      | load t p n =>
          simp only [List.cons_append, transformInstructions, List.append_eq]
          rw [ih st rest terminal his]
          simp
      | memoryCopy s d z =>
          simp only [List.cons_append, transformInstructions, List.append_eq]
          rw [ih st rest terminal his]
          simp
      | passThrough t e n =>
          simp only [List.cons_append, transformInstructions, List.append_eq]
          rw [ih st rest terminal his]
          simp
      | store t v p =>
          simp only [List.cons_append, transformInstructions, List.append_eq]
          rw [ih st rest terminal his]
          simp

/-- C2: for a Source-convention function whose block ends with a Source call
whose result the terminal returns, the CPS transformation rewrites that call
in place, prepending `_s` and the current continuation `_k` before the
preserved user arguments, rebinds the call's result to a fresh generated
name, makes the terminal return that fresh name at the configured final
result type, and synthesizes no continuation function. -/
theorem cps_transform_tail_call_rewrite (finalResultType : IRType) (st : SfState)
    (d : FunctionDefinition) (pre : List Instruction) (c : Call) (R : IRType)
    (hopt : d.options.callingConvention = .source)
    (hbody : d.body = .mk (pre ++ [.call c]) (.return_ R (.variable c.name)))
    (hcc : c.type.callingConvention = .source)
    (hpre : ∀ i ∈ pre, plainInstruction i = true) :
    (transformFunctionDefinition finalResultType st d).2.body =
        .mk (pre ++ [.call ⟨c.type, c.function,
            .variable "_s" :: .variable "_k" :: c.arguments,
            "_k_" ++ toString st.counter⟩])
          (.return_ finalResultType (.variable ("_k_" ++ toString st.counter)))
      ∧ (transformFunctionDefinition finalResultType st d).1.functionDefinitions =
          st.functionDefinitions := by
  unfold transformFunctionDefinition
  rw [if_pos hopt]
  simp only [transformBlockRecursively, hbody]
  rw [transformInstructions_plain_skip finalResultType _ pre st [.call c]
    (.return_ R (.variable c.name)) hpre]
  simp [transformInstructions, hcc, isTailReturn, generateName, transformCall]

/-- C2 witness: the tail-call rewrite instantiated at the scenario-4
module's function definition. -/
theorem cps_transform_tail_call_rewrite_witness :
    (transformFunctionDefinition voidType ⟨0, []⟩
        ⟨"f", [], float64Type,
          .mk [.call ⟨⟨[], float64Type, .source⟩, .variable "f", [], "x"⟩]
            (.return_ float64Type (.variable "x")),
          ⟨true, .source, .external⟩⟩).2.body =
        .mk [.call ⟨⟨[], float64Type, .source⟩, .variable "f",
            [.variable "_s", .variable "_k"], "_k_0"⟩]
          (.return_ voidType (.variable "_k_0")) := by
  have h := cps_transform_tail_call_rewrite voidType ⟨0, []⟩
    ⟨"f", [], float64Type,
      .mk [.call ⟨⟨[], float64Type, .source⟩, .variable "f", [], "x"⟩]
        (.return_ float64Type (.variable "x")),
      ⟨true, .source, .external⟩⟩
    [] ⟨⟨[], float64Type, .source⟩, .variable "f", [], "x"⟩ float64Type
    rfl rfl rfl (by intro i hi; cases hi)
  exact h.1

/-- C3: a Call of the Target convention with a memory-returning record
result and a variable-reference callee is replaced by exactly three steps:
a stack-slot allocation under the fresh "{name}_c_" prefix, a call of the
callee at the rewritten type with the pointer appended as the final
argument binding the unused void result to the next fresh name, and a load
of the result into the original name. -/
theorem c_abi_call_site_rewrite (wordBytes : Nat) (c : Call) (v : String)
    (hcc : c.type.callingConvention = .target)
    (hfn : c.function = .variable v)
    (hmem : isMemoryClass wordBytes c.type.result = true) :
    transformInstructionC wordBytes (.call c) =
      [.allocateStack c.type.result (c.name ++ "_c_0"),
       .call ⟨⟨c.type.arguments ++ [.pointer c.type.result], voidType,
           c.type.callingConvention⟩,
         .variable v, c.arguments ++ [.variable (c.name ++ "_c_0")], c.name ++ "_c_1"⟩,
       .load c.type.result (.variable (c.name ++ "_c_0")) c.name] := by
  simp only [transformInstructionC, hcc, if_true, hfn, transformFunctionTypeC, hmem]

/-- C3 witness: the call-site rewrite instantiated at the scenario-3 call of
a function returning three 64-bit integers. -/
theorem c_abi_call_site_rewrite_witness :
    isMemoryClass 8 tripleRecordType = true ∧
      transformInstructionC 8
          (.call ⟨⟨[], tripleRecordType, .target⟩, .variable "f", [], "x"⟩) =
        [.allocateStack tripleRecordType "x_c_0",
         .call ⟨⟨[.pointer tripleRecordType], voidType, .target⟩, .variable "f",
           [.variable "x_c_0"], "x_c_1"⟩,
         .load tripleRecordType (.variable "x_c_0") "x"] :=
  ⟨by decide,
    c_abi_call_site_rewrite 8 ⟨⟨[], tripleRecordType, .target⟩, .variable "f", [], "x"⟩ "f"
      rfl rfl (by decide)⟩

/-- C6: inside a Source-convention function, a terminal return(R, e) that
does not return a tail call's result is rewritten into a call of the
continuation `_k` with arguments [_s, e] binding a fresh result name,
followed by a return of that name at the configured final result type. -/
theorem cps_return_rewrite (finalResultType : IRType)
    (localVariables : List (String × IRType)) (st : SfState)
    (instructions : List Instruction) (R : IRType) (e : Expression)
    (h : ∀ i ∈ instructions, notTopLevelSourceCall i = true) :
    ∃ (pre : List Instruction) (resultName : String),
      (transformInstructions finalResultType localVariables st instructions
          (.return_ R e)).2 =
        .mk (pre ++ [.call ⟨continuationTypeCompile R finalResultType, .variable "_k",
            [.variable "_s", e], resultName⟩])
          (.return_ finalResultType (.variable resultName)) := by
  induction instructions generalizing st with
  | nil =>
      refine ⟨[], "_k_" ++ toString st.counter, ?_⟩
      simp [transformInstructions, generateName]
  | cons i rest ih =>
      have hi : notTopLevelSourceCall i = true := h i (List.mem_cons_self _ _)
      have hrest : ∀ j ∈ rest, notTopLevelSourceCall j = true :=
        fun j hj => h j (List.mem_cons_of_mem _ hj)
      cases i with
      | call c =>
          have hcc : ¬c.type.callingConvention = CallingConvention.source := by
            simp only [notTopLevelSourceCall, ne_eq, decide_not] at hi
            simpa using hi
          obtain ⟨pre, resultName, hp⟩ := ih st hrest
          refine ⟨.call c :: pre, resultName, ?_⟩
          simp only [transformInstructions, if_neg hcc]
          rw [hp]
          simp
      | if_ t condition thenBlock elseBlock n =>
          obtain ⟨pre, resultName, hp⟩ := ih
            (transformBlockRecursively finalResultType localVariables
              (transformBlockRecursively finalResultType localVariables st thenBlock).1
              elseBlock).1 hrest
          refine ⟨.if_ t condition
            (transformBlockRecursively finalResultType localVariables st thenBlock).2
            (transformBlockRecursively finalResultType localVariables
              (transformBlockRecursively finalResultType localVariables st thenBlock).1
              elseBlock).2 n :: pre, resultName, ?_⟩
          simp only [transformInstructions]
          rw [hp]
          simp
      | allocateStack t n =>
          obtain ⟨pre, resultName, hp⟩ := ih st hrest
          exact ⟨.allocateStack t n :: pre, resultName, by
            simp only [transformInstructions]; rw [hp]; simp⟩
      | deconstructRecord t e2 j n =>
          obtain ⟨pre, resultName, hp⟩ := ih st hrest
          exact ⟨.deconstructRecord t e2 j n :: pre, resultName, by
            simp only [transformInstructions]; rw [hp]; simp⟩
      | load t p n =>
          obtain ⟨pre, resultName, hp⟩ := ih st hrest
          exact ⟨.load t p n :: pre, resultName, by
            simp only [transformInstructions]; rw [hp]; simp⟩
      | memoryCopy s2 d2 z =>
          obtain ⟨pre, resultName, hp⟩ := ih st hrest
          exact ⟨.memoryCopy s2 d2 z :: pre, resultName, by
            simp only [transformInstructions]; rw [hp]; simp⟩
      | passThrough t e2 n =>
          obtain ⟨pre, resultName, hp⟩ := ih st hrest
          exact ⟨.passThrough t e2 n :: pre, resultName, by
            simp only [transformInstructions]; rw [hp]; simp⟩
      | store t v p =>
          obtain ⟨pre, resultName, hp⟩ := ih st hrest
          exact ⟨.store t v p :: pre, resultName, by
            simp only [transformInstructions]; rw [hp]; simp⟩

/-- C6 witness: the return rewrite instantiated at a block with a single
store instruction returning a float literal. -/
theorem cps_return_rewrite_witness :
    ∃ (pre : List Instruction) (resultName : String),
      (transformInstructions voidType [] ⟨0, []⟩
          [.store float64Type (.undefined float64Type) (.variable "p")]
          (.return_ float64Type (.primitive (.float64 42)))).2 =
        .mk (pre ++ [.call ⟨continuationTypeCompile float64Type voidType, .variable "_k",
            [.variable "_s", .primitive (.float64 42)], resultName⟩])
          (.return_ voidType (.variable resultName)) :=
  cps_return_rewrite voidType [] ⟨0, []⟩
    [.store float64Type (.undefined float64Type) (.variable "p")]
    float64Type (.primitive (.float64 42)) (by decide)

/-- C7: the continuation environment contains every name free in the
remaining instructions and terminal (plus `_k`, minus the call's own result
name, restricted to the local-variable environment); splitting a non-tail
Source call pushes the environment record and the synthesized continuation
pops a record of exactly that type and deconstructs its fields in the same
order, rebinding each environment name from the field index at which it was
pushed. -/
theorem cps_continuation_environment_faithful :
    (∀ (c : Call) (instructions : List Instruction) (terminal : TerminalInstruction)
        (localVariables : List (String × IRType)) (n : String) (T : IRType),
        (n = "_k" ∨ n ∈ freeVariableCollect instructions terminal) → n ≠ c.name →
        localVariables.lookup n = some T →
        (n, T) ∈ getContinuationEnvironment c instructions terminal localVariables)
    ∧ (∀ (finalResultType : IRType) (localVariables : List (String × IRType))
        (st : SfState) (c : Call) (rest : List Instruction)
        (terminal : TerminalInstruction),
        c.type.callingConvention = .source →
        (rest.isEmpty && isTailReturn terminal c.name) = false →
        transformInstructions finalResultType localVariables st (.call c :: rest) terminal =
          (createContinuation finalResultType
              (transformInstructions finalResultType localVariables
                ⟨st.counter + 1 + 1, st.functionDefinitions⟩ rest terminal).1
              ("_k_" ++ toString (st.counter + 1)) ⟨c.name, c.type.result⟩
              (getContinuationEnvironment c rest terminal localVariables)
              (transformInstructions finalResultType localVariables
                ⟨st.counter + 1 + 1, st.functionDefinitions⟩ rest terminal).2,
            .mk (stackPushInstructions (.variable "_s")
                (getEnvironmentRecordType (getContinuationEnvironment c rest terminal localVariables))
                (getEnvironmentRecord (getContinuationEnvironment c rest terminal localVariables)) ++
                [.call (transformCall c ("_k_" ++ toString (st.counter + 1))
                  ("_k_" ++ toString st.counter))])
              (.return_ finalResultType (.variable ("_k_" ++ toString st.counter)))))
    ∧ (∀ (finalResultType : IRType) (st : SfState) (name : String) (argument : Argument)
        (environment : List (String × IRType)) (block : Block),
        (createContinuation finalResultType st name argument environment block).functionDefinitions =
          st.functionDefinitions ++
            [{ name := name,
               arguments := [⟨"_s", stackType⟩, argument],
               resultType := finalResultType,
               body := .mk
                 (.load (getEnvironmentRecordType environment)
                     (.bitCast stackType (.pointer (getEnvironmentRecordType environment))
                       (.variable "_s")) ("_k_" ++ toString st.counter) ::
                   (environment.enum.map (fun p =>
                     Instruction.deconstructRecord (getEnvironmentRecordType environment)
                       (.variable ("_k_" ++ toString st.counter)) p.1 p.2.1) ++
                   block.instructions))
                 block.terminalInstruction,
               options := ⟨false, .tail, .internal⟩ }]) := by
  refine ⟨?_, ?_, ?_⟩
  · intro c instructions terminal localVariables n T hn hnc hl
    have hmem : n ∈ ("_k" :: freeVariableCollect instructions terminal).filter
        (fun m => m ≠ c.name) := by
      rw [List.mem_filter]
      refine ⟨?_, by simpa using hnc⟩
      rcases hn with hn | hn
      · exact hn ▸ List.mem_cons_self _ _
      · exact List.mem_cons_of_mem _ hn
    exact mem_filterMap_lookup (fun m => localVariables.lookup m) _ n T hmem hl
  · intro finalResultType localVariables st c rest terminal hcc hnt
    simp only [transformInstructions, if_pos hcc, generateName, hnt, Bool.false_eq_true,
      if_false]
  · intro finalResultType st name argument environment block
    simp [createContinuation, stackPopInstructions, generateName]

/-- C7 witness: the environment membership, the split and the continuation
shape instantiated at the scenario-5 split. -/
theorem cps_continuation_environment_faithful_witness :
    ("p", IRType.pointer float64Type) ∈
        getContinuationEnvironment ⟨⟨[], float64Type, .source⟩, .variable "g", [], "x"⟩
          [.store float64Type (.variable "x") (.variable "p")]
          (.return_ float64Type (.variable "x"))
          [("_k", stackType), ("p", .pointer float64Type)]
      ∧ (transformInstructions voidType [("_k", stackType)] ⟨0, []⟩
            [.call ⟨⟨[], float64Type, .source⟩, .variable "g", [], "x"⟩] .unreachable).2.terminalInstruction =
          .return_ voidType (.variable "_k_0")
      ∧ (createContinuation voidType ⟨5, []⟩ "k0" ⟨"x", float64Type⟩
            [("_k", stackType)] (.mk [] .unreachable)).functionDefinitions.length = 1 := by
  refine ⟨?_, ?_, ?_⟩
  · exact cps_continuation_environment_faithful.1
      ⟨⟨[], float64Type, .source⟩, .variable "g", [], "x"⟩
      [.store float64Type (.variable "x") (.variable "p")]
      (.return_ float64Type (.variable "x"))
      [("_k", stackType), ("p", .pointer float64Type)] "p" (.pointer float64Type)
      (Or.inr (by decide)) (by decide) rfl
  · rw [cps_continuation_environment_faithful.2.1 voidType [("_k", stackType)] ⟨0, []⟩
      ⟨⟨[], float64Type, .source⟩, .variable "g", [], "x"⟩ [] .unreachable rfl (by decide)]
    rfl
  · rw [cps_continuation_environment_faithful.2.2 voidType ⟨5, []⟩ "k0" ⟨"x", float64Type⟩
      [("_k", stackType)] (.mk [] .unreachable)]
    rfl

/-- C8 counterexample: in the module with a Source function capturing its
argument "A" across a non-tail Source call, the pushed environment record's
field order is ["_k", "A"], which is not lexicographic, since "A" sorts
before "_k". -/
theorem environment_order_counterexample :
    typeCheck moduleC8 = true ∧
      cpsTransform voidType moduleC8 = .ok (cpsOutput voidType moduleC8) ∧
      moduleEnvironmentPushes (cpsOutput voidType moduleC8) = [["_k", "A"]] ∧
      sortNames ["_k", "A"] = ["A", "_k"] ∧
      lexSortedB ["_k", "A"] = false :=
  ⟨rfl, rfl, rfl, rfl, rfl⟩

/-- C8 amended: the field order of every continuation environment record is
`_k` first, followed by the captured free variables in lexicographic order
(the free-variable collection is sorted); the layout is a pure function of
the split call, the remaining code and the local-variable environment, hence
stable across runs. -/
theorem environment_order_amended :
    (∀ (c : Call) (instructions : List Instruction) (terminal : TerminalInstruction)
        (localVariables : List (String × IRType)),
        (getContinuationEnvironment c instructions terminal localVariables).map Prod.fst =
          (("_k" :: freeVariableCollect instructions terminal).filter
            (fun n => n ≠ c.name)).filter
              (fun n => (localVariables.lookup n).isSome))
    ∧ ∀ (instructions : List Instruction) (terminal : TerminalInstruction),
        lexSortedB (freeVariableCollect instructions terminal) = true := by
  constructor
  · intro c instructions terminal localVariables
    exact filterMap_lookup_fst (fun n => localVariables.lookup n) _
  · intro instructions terminal
    exact sortNames_sorted _

/-- C9 counterexample: on the module whose only call has the Target
convention, a memory-returning record result and a non-variable (bit-cast)
callee, the transform returns the module unchanged; it does not fail with
UnsupportedCalleeShape, nor with any other error. -/
theorem unsupported_callee_counterexample :
    typeCheck moduleC9 = true ∧
      (moduleCalls moduleC9).map (fun c => c.type.callingConvention) = [.target] ∧
      (moduleCalls moduleC9).map Call.function =
        [.bitCast tripleFunctionType tripleFunctionType (.undefined tripleFunctionType)] ∧
      isMemoryClass 8 tripleRecordType = true ∧
      cCallingConventionTransform moduleC9 8 = .ok moduleC9 :=
  ⟨rfl, rfl, rfl, by decide, rfl⟩

/-- C9 amended: a Target-convention call whose callee is not a variable
reference is passed through unchanged by the call-site rewrite, and the
transform never produces an UnsupportedCalleeShape error. -/
theorem non_variable_callee_passthrough :
    (∀ (wordBytes : Nat) (c : Call),
        c.type.callingConvention = .target →
        (∀ v, c.function ≠ .variable v) →
        transformInstructionC wordBytes (.call c) = [.call c])
    ∧ ∀ (m : IRModule) (wordBytes : Nat),
        cCallingConventionTransform m wordBytes ≠ .error .unsupportedCalleeShape := by
  constructor
  · intro wordBytes c hcc hfn
    cases hf : c.function
    all_goals
      first
        | exact absurd hf (hfn _)
        | simp [transformInstructionC, hcc, hf]
  · intro m wordBytes h
    unfold cCallingConventionTransform at h
    split at h
    · simp at h
    · split at h
      · simp only [] at h
        split at h
        · simp at h
        · simp at h
      · simp at h

/-- C9 amended witness: the pass-through instantiated at the moduleC9 call,
and the never-UnsupportedCalleeShape fact at moduleC9 itself. -/
theorem non_variable_callee_passthrough_witness :
    transformInstructionC 8
        (.call ⟨⟨[], tripleRecordType, .target⟩,
          .bitCast tripleFunctionType tripleFunctionType (.undefined tripleFunctionType),
          [], "x"⟩) =
      [.call ⟨⟨[], tripleRecordType, .target⟩,
        .bitCast tripleFunctionType tripleFunctionType (.undefined tripleFunctionType),
        [], "x"⟩] ∧
      cCallingConventionTransform moduleC9 8 ≠ .error .unsupportedCalleeShape :=
  ⟨non_variable_callee_passthrough.1 8
    ⟨⟨[], tripleRecordType, .target⟩,
      .bitCast tripleFunctionType tripleFunctionType (.undefined tripleFunctionType), [], "x"⟩
    rfl (fun v h => Expression.noConfusion h),
   non_variable_callee_passthrough.2 moduleC9 8⟩

/-- C10 counterexample: when the split call's own result name is "_k", the
name "_k" is filtered out of the continuation environment; the pushed
environment record is empty and has no first field at all. -/
theorem continuation_first_field_counterexample :
    typeCheck moduleC10 = true ∧
      cpsTransform voidType moduleC10 = .ok (cpsOutput voidType moduleC10) ∧
      moduleEnvironmentPushes (cpsOutput voidType moduleC10) = [[]] ∧
      ([] : List String).head? ≠ some "_k" :=
  ⟨rfl, rfl, rfl, by simp⟩

/-- C10 amended: whenever the split call's result name differs from "_k",
the continuation variable "_k" occupies the first field (index 0) of the
environment, and the synthesized continuation's first deconstruction
rebinds "_k" from field 0 of the popped record. -/
theorem continuation_first_field_amended :
    (∀ (c : Call) (instructions : List Instruction) (terminal : TerminalInstruction)
        (localVariables : List (String × IRType)) (T : IRType),
        localVariables.lookup "_k" = some T → c.name ≠ "_k" →
        (getContinuationEnvironment c instructions terminal localVariables).head? =
          some ("_k", T))
    ∧ ∀ (finalResultType : IRType) (st : SfState) (name : String) (argument : Argument)
        (T : IRType) (environmentRest : List (String × IRType)) (block : Block),
        ((createContinuation finalResultType st name argument (("_k", T) :: environmentRest)
              block).functionDefinitions.drop st.functionDefinitions.length).map
            (fun d => d.body.instructions.take 2) =
          [[.load (getEnvironmentRecordType (("_k", T) :: environmentRest))
              (.bitCast stackType
                (.pointer (getEnvironmentRecordType (("_k", T) :: environmentRest)))
                (.variable "_s")) ("_k_" ++ toString st.counter),
            .deconstructRecord (getEnvironmentRecordType (("_k", T) :: environmentRest))
              (.variable ("_k_" ++ toString st.counter)) 0 "_k"]] := by
  constructor
  · intro c instructions terminal localVariables T hl hnc
    simp only [getContinuationEnvironment, List.filter_cons]
    have : (decide ("_k" ≠ c.name)) = true := by
      simp only [ne_eq, decide_not, Bool.not_eq_true', decide_eq_false_iff_not]
      exact fun h => hnc h.symm
    rw [this]
    simp [hl]
  · intro finalResultType st name argument T environmentRest block
    simp only [createContinuation, stackPopInstructions, generateName]
    rw [List.drop_left]
    simp [List.enum_cons]

/-- C10 amended witness: the first-field property instantiated at a call
named "x" with "_k" bound in the local environment, and the continuation
shape at a one-entry environment. -/
theorem continuation_first_field_amended_witness :
    (getContinuationEnvironment ⟨⟨[], float64Type, .source⟩, .variable "g", [], "x"⟩
        [] .unreachable [("_k", stackType)]).head? = some ("_k", stackType) ∧
      ((createContinuation voidType ⟨0, []⟩ "k0" ⟨"x", float64Type⟩
            [("_k", stackType)] (.mk [] .unreachable)).functionDefinitions.drop 0).map
          (fun d => d.body.instructions.take 2) =
        [[.load (getEnvironmentRecordType [("_k", stackType)])
            (.bitCast stackType (.pointer (getEnvironmentRecordType [("_k", stackType)]))
              (.variable "_s")) "_k_0",
          .deconstructRecord (getEnvironmentRecordType [("_k", stackType)])
            (.variable "_k_0") 0 "_k"]] :=
  ⟨continuation_first_field_amended.1 ⟨⟨[], float64Type, .source⟩, .variable "g", [], "x"⟩
      [] .unreachable [("_k", stackType)] stackType rfl (by decide),
    continuation_first_field_amended.2 voidType ⟨0, []⟩ "k0" ⟨"x", float64Type⟩
      stackType [] (.mk [] .unreachable)⟩

/-! State invariants of the CPS passes: every function definition the
transformations append carries the Tail convention. -/

mutual

theorem sfStateTailInstructions (finalResultType : IRType)
    (localVariables : List (String × IRType)) :
    ∀ (instructions : List Instruction) (terminal : TerminalInstruction) (st : SfState)
      (d : FunctionDefinition),
      d ∈ (transformInstructions finalResultType localVariables st
          instructions terminal).1.functionDefinitions →
      d ∈ st.functionDefinitions ∨ d.options.callingConvention = .tail := by
  intro instructions terminal st d hd
  cases instructions with
  | nil =>
      cases terminal with
      | return_ t e => simp only [transformInstructions, generateName] at hd; exact Or.inl hd
      | branch t e => simp only [transformInstructions] at hd; exact Or.inl hd
      | unreachable => simp only [transformInstructions] at hd; exact Or.inl hd
  | cons i rest =>
      cases i with
      | call c =>
          by_cases hcc : c.type.callingConvention = CallingConvention.source
          · simp only [transformInstructions, if_pos hcc, generateName] at hd
            by_cases ht : (rest.isEmpty && isTailReturn terminal c.name) = true
            · rw [if_pos ht] at hd
              exact Or.inl hd
            · rw [if_neg ht] at hd
              simp only [createContinuation, stackPopInstructions, generateName,
                List.mem_append, List.mem_singleton] at hd
              rcases hd with hd | hd
              · exact sfStateTailInstructions finalResultType localVariables rest terminal
                  ⟨st.counter + 1 + 1, st.functionDefinitions⟩ d hd
              · subst hd
                exact Or.inr rfl
          · simp only [transformInstructions, if_neg hcc] at hd
            exact sfStateTailInstructions finalResultType localVariables rest terminal st d hd
      | if_ t condition thenBlock elseBlock n =>
          simp only [transformInstructions] at hd
          have h3 := sfStateTailInstructions finalResultType localVariables rest terminal
            (transformBlockRecursively finalResultType localVariables
              (transformBlockRecursively finalResultType localVariables st thenBlock).1
              elseBlock).1 d hd
          rcases h3 with h3 | h3
          · have h2 := sfStateTailBlock finalResultType localVariables elseBlock
              (transformBlockRecursively finalResultType localVariables st thenBlock).1 d h3
            rcases h2 with h2 | h2
            · exact sfStateTailBlock finalResultType localVariables thenBlock st d h2
            · exact Or.inr h2
          · exact Or.inr h3
      | allocateStack t n =>
          simp only [transformInstructions] at hd
          exact sfStateTailInstructions finalResultType localVariables rest terminal st d hd
      | deconstructRecord t e j n =>
          simp only [transformInstructions] at hd
          exact sfStateTailInstructions finalResultType localVariables rest terminal st d hd
      | load t p n =>
          simp only [transformInstructions] at hd
          exact sfStateTailInstructions finalResultType localVariables rest terminal st d hd
      | memoryCopy s2 d2 z =>
          simp only [transformInstructions] at hd
          exact sfStateTailInstructions finalResultType localVariables rest terminal st d hd
      | passThrough t e n =>
          simp only [transformInstructions] at hd
          exact sfStateTailInstructions finalResultType localVariables rest terminal st d hd
      | store t v p =>
          simp only [transformInstructions] at hd
          exact sfStateTailInstructions finalResultType localVariables rest terminal st d hd

theorem sfStateTailBlock (finalResultType : IRType)
    (localVariables : List (String × IRType)) :
    ∀ (b : Block) (st : SfState) (d : FunctionDefinition),
      d ∈ (transformBlockRecursively finalResultType localVariables st b).1.functionDefinitions →
      d ∈ st.functionDefinitions ∨ d.options.callingConvention = .tail := by
  intro b st d hd
  cases b with
  | mk is terminal =>
      simp only [transformBlockRecursively] at hd
      exact sfStateTailInstructions finalResultType localVariables is terminal st d hd

end

theorem sfStateTailDefinition (finalResultType : IRType) (st : SfState)
    (d0 : FunctionDefinition) (d : FunctionDefinition)
    (hd : d ∈ (transformFunctionDefinition finalResultType st d0).1.functionDefinitions) :
    d ∈ st.functionDefinitions ∨ d.options.callingConvention = .tail := by
  unfold transformFunctionDefinition at hd
  by_cases hcc : d0.options.callingConvention = CallingConvention.source
  · rw [if_pos hcc] at hd
    simp only at hd
    exact sfStateTailBlock finalResultType _ _ st d hd
  · rw [if_neg hcc] at hd
    exact Or.inl hd

theorem sfStateTailDefinitionList (finalResultType : IRType) :
    ∀ (ds : List FunctionDefinition) (st : SfState) (d : FunctionDefinition),
      d ∈ (transformDefinitionList finalResultType st ds).1.functionDefinitions →
      d ∈ st.functionDefinitions ∨ d.options.callingConvention = .tail := by
  intro ds
  induction ds with
  | nil => intro st d hd; exact Or.inl hd
  | cons d0 ds ih =>
      intro st d hd
      simp only [transformDefinitionList] at hd
      rcases ih _ d hd with h | h
      · exact sfStateTailDefinition finalResultType st d0 d h
      · exact Or.inr h

/-- The calling convention a definition's option carries after the
Source-function pass. -/
theorem sfDefinitionCcMap (finalResultType : IRType) :
    ∀ (ds : List FunctionDefinition) (st : SfState),
      (transformDefinitionList finalResultType st ds).2.map
          (fun d => d.options.callingConvention) =
        ds.map (fun d =>
          if d.options.callingConvention = .source then .tail
          else d.options.callingConvention) := by
  intro ds
  induction ds with
  | nil => intro st; rfl
  | cons d0 ds ih =>
      intro st
      simp only [transformDefinitionList, List.map_cons]
      rw [ih]
      unfold transformFunctionDefinition
      by_cases hcc : d0.options.callingConvention = CallingConvention.source
      · rw [if_pos hcc, if_pos hcc]
      · rw [if_neg hcc, if_neg hcc]

theorem tfStateTailContinuation (finalResultType : IRType) (st : TfState)
    (resultType : IRType) (d : FunctionDefinition)
    (hd : d ∈ (compileBridgeContinuation finalResultType st resultType).1.functionDefinitions) :
    d ∈ st.functionDefinitions ∨ d.options.callingConvention = .tail := by
  simp only [compileBridgeContinuation, generateCpsName, cpsPopInstructions,
    List.mem_append, List.mem_singleton] at hd
  rcases hd with hd | hd
  · exact Or.inl hd
  · subst hd
    exact Or.inr rfl

theorem tfStateTailCall (finalResultType : IRType) (st : TfState) (c : Call)
    (d : FunctionDefinition)
    (hd : d ∈ (compileSourceFunctionCall finalResultType st c).1.functionDefinitions) :
    d ∈ st.functionDefinitions ∨ d.options.callingConvention = .tail := by
  simp only [compileSourceFunctionCall, createStackInstructions, generateCpsName] at hd
  rcases tfStateTailContinuation finalResultType ⟨st.counter + 1 + 1, st.functionDefinitions⟩
      c.type.result d hd with h | h
  · exact Or.inl h
  · exact Or.inr h

mutual

theorem tfStateTailInstructions (finalResultType : IRType) :
    ∀ (instructions : List Instruction) (st : TfState) (d : FunctionDefinition),
      d ∈ (compileInstructionList finalResultType st instructions).1.functionDefinitions →
      d ∈ st.functionDefinitions ∨ d.options.callingConvention = .tail := by
  intro instructions st d hd
  cases instructions with
  | nil => exact Or.inl hd
  | cons i rest =>
      cases i with
      | call c =>
          by_cases hcc : c.type.callingConvention = CallingConvention.source
          · simp only [compileInstructionList, if_pos hcc] at hd
            rcases tfStateTailInstructions finalResultType rest _ d hd with h | h
            · exact tfStateTailCall finalResultType st c d h
            · exact Or.inr h
          · simp only [compileInstructionList, if_neg hcc] at hd
            exact tfStateTailInstructions finalResultType rest st d hd
      | if_ t condition thenBlock elseBlock n =>
          simp only [compileInstructionList] at hd
          rcases tfStateTailInstructions finalResultType rest _ d hd with h | h
          · rcases tfStateTailBridgeBlock finalResultType elseBlock _ d h with h2 | h2
            · exact tfStateTailBridgeBlock finalResultType thenBlock st d h2
            · exact Or.inr h2
          · exact Or.inr h
      | allocateStack t n =>
          simp only [compileInstructionList] at hd
          exact tfStateTailInstructions finalResultType rest st d hd
      | deconstructRecord t e j n =>
          simp only [compileInstructionList] at hd
          exact tfStateTailInstructions finalResultType rest st d hd
      | load t p n =>
          simp only [compileInstructionList] at hd
          exact tfStateTailInstructions finalResultType rest st d hd
      | memoryCopy s2 d2 z =>
          simp only [compileInstructionList] at hd
          exact tfStateTailInstructions finalResultType rest st d hd
      | passThrough t e n =>
          simp only [compileInstructionList] at hd
          exact tfStateTailInstructions finalResultType rest st d hd
      | store t v p =>
          simp only [compileInstructionList] at hd
          exact tfStateTailInstructions finalResultType rest st d hd

theorem tfStateTailBridgeBlock (finalResultType : IRType) :
    ∀ (b : Block) (st : TfState) (d : FunctionDefinition),
      d ∈ (compileBridgeBlock finalResultType st b).1.functionDefinitions →
      d ∈ st.functionDefinitions ∨ d.options.callingConvention = .tail := by
  intro b st d hd
  cases b with
  | mk is terminal =>
      simp only [compileBridgeBlock] at hd
      exact tfStateTailInstructions finalResultType is st d hd

end

theorem tfStateTailDefinitionList (finalResultType : IRType) :
    ∀ (ds : List FunctionDefinition) (st : TfState) (d : FunctionDefinition),
      d ∈ (compileBridgeDefinitionList finalResultType st ds).1.functionDefinitions →
      d ∈ st.functionDefinitions ∨ d.options.callingConvention = .tail := by
  intro ds
  induction ds with
  | nil => intro st d hd; exact Or.inl hd
  | cons d0 ds ih =>
      intro st d hd
      simp only [compileBridgeDefinitionList] at hd
      rcases ih _ d hd with h | h
      · unfold compileBridgeDefinition at h
        by_cases hcc : d0.options.callingConvention = CallingConvention.target
        · rw [if_pos hcc] at h
          simp only at h
          exact tfStateTailBridgeBlock finalResultType _ st d h
        · rw [if_neg hcc] at h
          exact Or.inl h
      · exact Or.inr h

/-- The companion pass does not change any definition's options. -/
theorem tfDefinitionCcMap (finalResultType : IRType) :
    ∀ (ds : List FunctionDefinition) (st : TfState),
      (compileBridgeDefinitionList finalResultType st ds).2.map
          (fun d => d.options.callingConvention) =
        ds.map (fun d => d.options.callingConvention) := by
  intro ds
  induction ds with
  | nil => intro st; rfl
  | cons d0 ds ih =>
      intro st
      simp only [compileBridgeDefinitionList, List.map_cons]
      rw [ih]
      unfold compileBridgeDefinition
      by_cases hcc : d0.options.callingConvention = CallingConvention.target
      · rw [if_pos hcc]
      · rw [if_neg hcc]

theorem ccAfter_ne_source (x : CallingConvention) :
    (if x = .source then CallingConvention.tail else x) ≠ .source := by
  cases x <;> simp

theorem cpsDefinitionTypes_options (finalResultType : IRType) (d : FunctionDefinition) :
    (cpsDefinitionTypes finalResultType d).options = d.options := rfl

theorem sourceFunctionTransform_defs (finalResultType : IRType) (m : IRModule) :
    (sourceFunctionTransform finalResultType m).functionDefinitions =
      (transformDefinitionList finalResultType ⟨0, []⟩ m.functionDefinitions).2 ++
        (transformDefinitionList finalResultType ⟨0, []⟩
          m.functionDefinitions).1.functionDefinitions := rfl

theorem targetFunctionCompile_defs (finalResultType : IRType) (m : IRModule) :
    (targetFunctionCompile finalResultType m).functionDefinitions =
      (compileBridgeDefinitionList finalResultType ⟨0, []⟩ m.functionDefinitions).2 ++
        (compileBridgeDefinitionList finalResultType ⟨0, []⟩
          m.functionDefinitions).1.functionDefinitions := rfl

theorem cpsModuleTypes_defs (finalResultType : IRType) (m : IRModule) :
    (cpsModuleTypes finalResultType m).functionDefinitions =
      m.functionDefinitions.map (cpsDefinitionTypes finalResultType) := rfl

theorem cpsTransform_ok (finalResultType : IRType) (m m' : IRModule)
    (h : cpsTransform finalResultType m = .ok m') :
    m' = cpsModuleTypes finalResultType
      (sourceFunctionTransform finalResultType (targetFunctionCompile finalResultType m)) := by
  unfold cpsTransform at h
  split at h
  · simp only [] at h
    split at h
    · injection h with h2
      exact h2.symm
    · cases h
  · cases h

/-- The calling conventions carried by the definitions of the full CPS
pipeline's output: the original definitions come first with Source turned
into Tail, followed by synthesized definitions that are all Tail. -/
theorem cpsPipeline_cc (finalResultType : IRType) (m : IRModule) :
    ((cpsModuleTypes finalResultType
        (sourceFunctionTransform finalResultType
          (targetFunctionCompile finalResultType m))).functionDefinitions.map
        (fun d => d.options.callingConvention)).take m.functionDefinitions.length =
      m.functionDefinitions.map (fun d =>
        if d.options.callingConvention = .source then .tail
        else d.options.callingConvention)
    ∧ ∀ cc ∈ ((cpsModuleTypes finalResultType
        (sourceFunctionTransform finalResultType
          (targetFunctionCompile finalResultType m))).functionDefinitions.map
        (fun d => d.options.callingConvention)).drop m.functionDefinitions.length,
      cc = CallingConvention.tail := by
  rw [cpsModuleTypes_defs, sourceFunctionTransform_defs, targetFunctionCompile_defs]
  rw [List.map_map]
  have hcc : ∀ d : FunctionDefinition,
      ((fun d => d.options.callingConvention) ∘ cpsDefinitionTypes finalResultType) d =
        d.options.callingConvention := fun d => rfl
  rw [List.map_congr_left (fun d _ => hcc d)]
  set B := compileBridgeDefinitionList finalResultType ⟨0, []⟩ m.functionDefinitions with hB
  have hsf := sfDefinitionCcMap finalResultType (B.2 ++ B.1.functionDefinitions) ⟨0, []⟩
  have htf : B.2.map (fun d =>
      if d.options.callingConvention = .source then CallingConvention.tail
      else d.options.callingConvention) =
      m.functionDefinitions.map (fun d =>
        if d.options.callingConvention = .source then CallingConvention.tail
        else d.options.callingConvention) := by
    have h1 := tfDefinitionCcMap finalResultType m.functionDefinitions ⟨0, []⟩
    have h2 : B.2.map (fun d =>
        if d.options.callingConvention = .source then CallingConvention.tail
        else d.options.callingConvention) =
        (B.2.map (fun d => d.options.callingConvention)).map
          (fun c => if c = .source then CallingConvention.tail else c) := by
      rw [List.map_map]
      rfl
    rw [h2, h1, List.map_map]
    rfl
  rw [List.map_append, hsf, List.map_append, htf, List.append_assoc]
  constructor
  · rw [List.take_left' (by rw [List.length_map])]
  · intro cc hcc2
    rw [List.drop_left' (by rw [List.length_map])] at hcc2
    rcases List.mem_append.mp hcc2 with hx | hx
    · rcases List.mem_map.mp hx with ⟨d, hd, hdc⟩
      rcases tfStateTailDefinitionList finalResultType m.functionDefinitions ⟨0, []⟩ d hd with
        h | h
      · cases h
      · rw [← hdc, h]
        rfl
    · rcases List.mem_map.mp hx with ⟨d, hd, hdc⟩
      rcases sfStateTailDefinitionList finalResultType (B.2 ++ B.1.functionDefinitions)
          ⟨0, []⟩ d hd with h | h
      · cases h
      · rw [← hdc, h]

/-- C1: every function definition in the module returned by cps_transform
has a calling convention other than Source; each Source-convention
definition is rewritten to the Tail convention (other definitions keep
their convention), and every synthesized definition is created with the
Tail convention. -/
theorem cps_transform_no_source_definitions (finalResultType : IRType) (m m' : IRModule)
    (h : cpsTransform finalResultType m = .ok m') :
    (∀ d ∈ m'.functionDefinitions, d.options.callingConvention ≠ .source)
    ∧ (m'.functionDefinitions.map (fun d => d.options.callingConvention)).take
        m.functionDefinitions.length =
      m.functionDefinitions.map (fun d =>
        if d.options.callingConvention = .source then .tail
        else d.options.callingConvention)
    ∧ ∀ cc ∈ (m'.functionDefinitions.map (fun d => d.options.callingConvention)).drop
        m.functionDefinitions.length, cc = CallingConvention.tail := by
  have hm := cpsTransform_ok finalResultType m m' h
  subst hm
  obtain ⟨h1, h2⟩ := cpsPipeline_cc finalResultType m
  refine ⟨?_, h1, h2⟩
  intro d hd
  have hmem : d.options.callingConvention ∈
      ((cpsModuleTypes finalResultType
        (sourceFunctionTransform finalResultType
          (targetFunctionCompile finalResultType m))).functionDefinitions.map
        (fun d => d.options.callingConvention)) := List.mem_map_of_mem _ hd
  rw [← List.take_append_drop m.functionDefinitions.length
    ((cpsModuleTypes finalResultType
      (sourceFunctionTransform finalResultType
        (targetFunctionCompile finalResultType m))).functionDefinitions.map
      (fun d => d.options.callingConvention))] at hmem
  rcases List.mem_append.mp hmem with hx | hx
  · rw [h1] at hx
    rcases List.mem_map.mp hx with ⟨d0, _, hdc⟩
    rw [← hdc]
    exact ccAfter_ne_source _
  · rw [h2 _ hx]
    simp

/-- C1 witness: the pipeline instantiated at the scenario-4 module. -/
theorem cps_transform_no_source_definitions_witness :
    cpsTransform voidType moduleScenario4 = .ok (cpsOutput voidType moduleScenario4) ∧
      ∀ d ∈ (cpsOutput voidType moduleScenario4).functionDefinitions,
        d.options.callingConvention ≠ .source :=
  ⟨rfl, (cps_transform_no_source_definitions voidType moduleScenario4
    (cpsOutput voidType moduleScenario4) rfl).1⟩

/-! The rewritten calls of the Source-function pass always receive the stack
variable `_s` and a continuation variable before the user arguments. -/

theorem instructionListCalls_append :
    ∀ l1 l2 : List Instruction,
      instructionListCalls (l1 ++ l2) = instructionListCalls l1 ++ instructionListCalls l2 := by
  intro l1
  induction l1 with
  | nil => intro l2; rfl
  | cons i rest ih =>
      intro l2
      cases i <;>
        simp only [List.cons_append, instructionListCalls, List.append_eq, ih,
          List.append_assoc]

theorem instructionListCalls_deconstructions (recordType : IRType) (e : Expression) :
    ∀ l : List (Nat × (String × IRType)),
      instructionListCalls (l.map (fun p =>
        Instruction.deconstructRecord recordType e p.1 p.2.1)) = [] := by
  intro l
  induction l with
  | nil => rfl
  | cons p rest ih => simp only [List.map_cons, instructionListCalls, ih]

theorem blockCalls_eq (b : Block) : blockCalls b = instructionListCalls b.instructions := by
  cases b
  rfl

mutual

theorem sfCallsPrefixInstructions (finalResultType : IRType)
    (localVariables : List (String × IRType)) :
    ∀ (instructions : List Instruction) (terminal : TerminalInstruction) (st : SfState),
      (∀ c ∈ blockCalls (transformInstructions finalResultType localVariables st
          instructions terminal).2,
        c.type.callingConvention = .source →
        ∃ κ rest0, c.arguments = .variable "_s" :: .variable κ :: rest0)
      ∧ ∀ d ∈ (transformInstructions finalResultType localVariables st
          instructions terminal).1.functionDefinitions,
          d ∈ st.functionDefinitions ∨
            ∀ c ∈ blockCalls d.body, c.type.callingConvention = .source →
              ∃ κ rest0, c.arguments = .variable "_s" :: .variable κ :: rest0 := by
  intro instructions terminal st
  cases instructions with
  | nil =>
      cases terminal with
      | return_ t e =>
          constructor
          · intro c hc hcc
            simp only [transformInstructions, generateName, blockCalls,
              instructionListCalls, List.mem_singleton] at hc
            subst hc
            cases hcc
          · intro d hd
            exact Or.inl hd
      | branch t e =>
          constructor
          · intro c hc hcc
            simp only [transformInstructions, blockCalls, instructionListCalls] at hc
            cases hc
          · intro d hd
            exact Or.inl hd
      | unreachable =>
          constructor
          · intro c hc hcc
            simp only [transformInstructions, blockCalls, instructionListCalls] at hc
            cases hc
          · intro d hd
            exact Or.inl hd
  | cons i rest =>
      cases i with
      | call c0 =>
          by_cases hcc0 : c0.type.callingConvention = CallingConvention.source
          · by_cases ht : (rest.isEmpty && isTailReturn terminal c0.name) = true
            · constructor
              · intro c hc hcc
                simp only [transformInstructions, if_pos hcc0, generateName, if_pos ht,
                  blockCalls, instructionListCalls, List.mem_singleton] at hc
                subst hc
                exact ⟨"_k", c0.arguments, rfl⟩
              · intro d hd
                simp only [transformInstructions, if_pos hcc0, generateName, if_pos ht] at hd
                exact Or.inl hd
            · have hrest := sfCallsPrefixInstructions finalResultType localVariables rest
                terminal ⟨st.counter + 1 + 1, st.functionDefinitions⟩
              constructor
              · intro c hc hcc
                simp only [transformInstructions, if_pos hcc0, generateName, if_neg ht,
                  blockCalls, stackPushInstructions, List.cons_append, List.nil_append,
                  instructionListCalls, List.mem_singleton] at hc
                subst hc
                exact ⟨_, c0.arguments, rfl⟩
              · intro d hd
                simp only [transformInstructions, if_pos hcc0, generateName, if_neg ht,
                  createContinuation, stackPopInstructions, List.mem_append,
                  List.mem_singleton] at hd
                rcases hd with hd | hd
                · exact hrest.2 d hd
                · subst hd
                  refine Or.inr ?_
                  intro c hc hcc
                  rw [blockCalls_eq] at hc
                  simp only [Block.instructions_mk, List.append_eq, List.nil_append,
                    instructionListCalls_append, instructionListCalls,
                    instructionListCalls_deconstructions, List.append_nil] at hc
                  exact hrest.1 c (by rw [blockCalls_eq]; exact hc) hcc
          · have hrest := sfCallsPrefixInstructions finalResultType localVariables rest
              terminal st
            constructor
            · intro c hc hcc
              simp only [transformInstructions, if_neg hcc0, blockCalls,
                instructionListCalls, List.mem_cons] at hc
              rcases hc with hc | hc
              · subst hc
                exact absurd hcc hcc0
              · exact hrest.1 c (by rw [blockCalls_eq]; exact hc) hcc
            · intro d hd
              simp only [transformInstructions, if_neg hcc0] at hd
              exact hrest.2 d hd
      | if_ t condition thenBlock elseBlock n =>
          have hthen := sfCallsPrefixBlock finalResultType localVariables thenBlock st
          have helse := sfCallsPrefixBlock finalResultType localVariables elseBlock
            (transformBlockRecursively finalResultType localVariables st thenBlock).1
          have hrest := sfCallsPrefixInstructions finalResultType localVariables rest terminal
            (transformBlockRecursively finalResultType localVariables
              (transformBlockRecursively finalResultType localVariables st thenBlock).1
              elseBlock).1
          constructor
          · intro c hc hcc
            simp only [transformInstructions, blockCalls, instructionListCalls,
              List.mem_append] at hc
            rcases hc with (hc | hc) | hc
            · exact hthen.1 c hc hcc
            · exact helse.1 c hc hcc
            · exact hrest.1 c (by rw [blockCalls_eq]; exact hc) hcc
          · intro d hd
            simp only [transformInstructions] at hd
            rcases hrest.2 d hd with h | h
            · rcases helse.2 d h with h2 | h2
              · exact hthen.2 d h2
              · exact Or.inr h2
            · exact Or.inr h
      | allocateStack t n =>
          have hrest := sfCallsPrefixInstructions finalResultType localVariables rest
            terminal st
          constructor
          · intro c hc hcc
            simp only [transformInstructions, blockCalls, instructionListCalls] at hc
            exact hrest.1 c (by rw [blockCalls_eq]; exact hc) hcc
          · intro d hd
            simp only [transformInstructions] at hd
            exact hrest.2 d hd
      | deconstructRecord t e j n =>
          have hrest := sfCallsPrefixInstructions finalResultType localVariables rest
            terminal st
          constructor
          · intro c hc hcc
            simp only [transformInstructions, blockCalls, instructionListCalls] at hc
            exact hrest.1 c (by rw [blockCalls_eq]; exact hc) hcc
          · intro d hd
            simp only [transformInstructions] at hd
            exact hrest.2 d hd
      | load t p n =>
          have hrest := sfCallsPrefixInstructions finalResultType localVariables rest
            terminal st
          constructor
          · intro c hc hcc
            simp only [transformInstructions, blockCalls, instructionListCalls] at hc
            exact hrest.1 c (by rw [blockCalls_eq]; exact hc) hcc
          · intro d hd
            simp only [transformInstructions] at hd
            exact hrest.2 d hd
      | memoryCopy s2 d2 z =>
          have hrest := sfCallsPrefixInstructions finalResultType localVariables rest
            terminal st
          constructor
          · intro c hc hcc
            simp only [transformInstructions, blockCalls, instructionListCalls] at hc
            exact hrest.1 c (by rw [blockCalls_eq]; exact hc) hcc
          · intro d hd
            simp only [transformInstructions] at hd
            exact hrest.2 d hd
      | passThrough t e n =>
          have hrest := sfCallsPrefixInstructions finalResultType localVariables rest
            terminal st
          constructor
          · intro c hc hcc
            simp only [transformInstructions, blockCalls, instructionListCalls] at hc
            exact hrest.1 c (by rw [blockCalls_eq]; exact hc) hcc
          · intro d hd
            simp only [transformInstructions] at hd
            exact hrest.2 d hd
      | store t v p =>
          have hrest := sfCallsPrefixInstructions finalResultType localVariables rest
            terminal st
          constructor
          · intro c hc hcc
            simp only [transformInstructions, blockCalls, instructionListCalls] at hc
            exact hrest.1 c (by rw [blockCalls_eq]; exact hc) hcc
          · intro d hd
            simp only [transformInstructions] at hd
            exact hrest.2 d hd

theorem sfCallsPrefixBlock (finalResultType : IRType)
    (localVariables : List (String × IRType)) :
    ∀ (b : Block) (st : SfState),
      (∀ c ∈ blockCalls (transformBlockRecursively finalResultType localVariables st b).2,
        c.type.callingConvention = .source →
        ∃ κ rest0, c.arguments = .variable "_s" :: .variable κ :: rest0)
      ∧ ∀ d ∈ (transformBlockRecursively finalResultType localVariables st
          b).1.functionDefinitions,
          d ∈ st.functionDefinitions ∨
            ∀ c ∈ blockCalls d.body, c.type.callingConvention = .source →
              ∃ κ rest0, c.arguments = .variable "_s" :: .variable κ :: rest0 := by
  intro b st
  cases b with
  | mk is terminal =>
      simp only [transformBlockRecursively]
      exact sfCallsPrefixInstructions finalResultType localVariables is terminal st

end

/-- C5 counterexample: in a module whose Target-convention function calls a
Source-convention declaration, the bridged call in the CPS output carries
the Tail convention but its argument list begins with the freshly
synthesized stack variable "_cps_0", not with "_s". -/
theorem cps_call_prefix_counterexample :
    typeCheck moduleC5 = true ∧
      (moduleCalls moduleC5).map (fun c => c.type.callingConvention) = [.source] ∧
      cpsTransform voidType moduleC5 = .ok (cpsOutput voidType moduleC5) ∧
      (moduleCalls (cpsOutput voidType moduleC5)).map Call.arguments =
        [[.variable "_cps_0", .variable "_cps_2"]] ∧
      (moduleCalls (cpsOutput voidType moduleC5)).map (fun c => c.type.callingConvention) =
        [.tail] ∧
      Expression.variable "_cps_0" ≠ Expression.variable "_s" :=
  ⟨rfl, rfl, rfl, rfl, rfl, by simp⟩

/-- C5 amended: a Source function type converts to the Tail convention; the
call rewrite of the Source-function pass prepends `_s` and the continuation
before the preserved user arguments; hence inside every transformed
Source-convention function every Source-convention call's argument list
begins with `_s` followed by a continuation variable; a Source call bridged
out of a Target-convention function instead begins with a freshly
synthesized stack variable and continuation. -/
theorem cps_call_prefix_amended :
    (∀ (finalResultType : IRType) (f : FunctionType),
        f.callingConvention = .source →
        (cpsFunctionType finalResultType f).callingConvention = .tail)
    ∧ (∀ (c : Call) (continuationName resultName : String),
        transformCall c continuationName resultName =
          ⟨c.type, c.function,
            .variable "_s" :: .variable continuationName :: c.arguments, resultName⟩)
    ∧ (∀ (finalResultType : IRType) (st : SfState) (d : FunctionDefinition),
        d.options.callingConvention = .source →
        ∀ c ∈ blockCalls (transformFunctionDefinition finalResultType st d).2.body,
          c.type.callingConvention = .source →
          ∃ κ rest0, c.arguments = .variable "_s" :: .variable κ :: rest0)
    ∧ ∀ (finalResultType : IRType) (st : TfState) (c : Call),
        instructionListCalls (compileSourceFunctionCall finalResultType st c).2 =
          [⟨c.type, c.function,
            .variable ("_cps_" ++ toString st.counter) ::
              .variable ("_cps_" ++ toString (st.counter + 1 + 1)) :: c.arguments,
            "_cps_" ++ toString (st.counter + 1 + 1 + 1 + 1)⟩] := by
  refine ⟨?_, ?_, ?_, ?_⟩
  · intro finalResultType f hcc
    cases f with
    | mk arguments result cc =>
        cases hcc
        simp [cpsFunctionType, FunctionType.toType, cpsType]
  · intro c continuationName resultName
    rfl
  · intro finalResultType st d hopt c hc hcc
    unfold transformFunctionDefinition at hc
    rw [if_pos hopt] at hc
    simp only at hc
    exact (sfCallsPrefixBlock finalResultType _ _ st).1 c hc hcc
  · intro finalResultType st c
    simp [compileSourceFunctionCall, createStackInstructions, generateCpsName,
      compileBridgeContinuation, cpsPopInstructions, stackPushInstructions,
      instructionListCalls]

/-- C5 amended witness: the pieces instantiated at the scenario-4 function
and at the moduleC5 bridged call. -/
theorem cps_call_prefix_amended_witness :
    (cpsFunctionType voidType ⟨[], float64Type, .source⟩).callingConvention = .tail ∧
      transformCall ⟨⟨[], float64Type, .source⟩, .variable "f", [], "x"⟩ "_k" "_k_0" =
        ⟨⟨[], float64Type, .source⟩, .variable "f",
          [.variable "_s", .variable "_k"], "_k_0"⟩ ∧
      instructionListCalls
          (compileSourceFunctionCall voidType ⟨0, []⟩
            ⟨⟨[], float64Type, .source⟩, .variable "f", [], "x"⟩).2 =
        [⟨⟨[], float64Type, .source⟩, .variable "f",
          [.variable "_cps_0", .variable "_cps_2"], "_cps_4"⟩] := by
  refine ⟨cps_call_prefix_amended.1 voidType ⟨[], float64Type, .source⟩ rfl, ?_, ?_⟩
  · rw [cps_call_prefix_amended.2.1 ⟨⟨[], float64Type, .source⟩, .variable "f", [], "x"⟩
      "_k" "_k_0"]
  · rw [cps_call_prefix_amended.2.2.2 voidType ⟨0, []⟩
      ⟨⟨[], float64Type, .source⟩, .variable "f", [], "x"⟩]
    rfl

/-! Identity of the CPS passes on modules free of Source conventions. -/

mutual

theorem cpsType_id (finalResultType : IRType) :
    ∀ t, noSourceTypeB t = true → cpsType finalResultType t = t := by
  intro t h
  cases t with
  | primitive p => rfl
  | pointer t2 =>
      rw [noSourceTypeB] at h
      rw [cpsType, cpsType_id finalResultType t2 h]
  | record fields =>
      rw [noSourceTypeB] at h
      rw [cpsType, cpsTypeList_id finalResultType fields h]
  | union members =>
      rw [noSourceTypeB] at h
      rw [cpsType, cpsTypeList_id finalResultType members h]
  | function arguments result cc =>
      rw [noSourceTypeB] at h
      simp only [Bool.and_eq_true, ne_eq, decide_not, Bool.not_eq_true',
        decide_eq_false_iff_not] at h
      obtain ⟨⟨h1, h2⟩, h3⟩ := h
      rw [cpsType, cpsTypeList_id finalResultType arguments h2,
        cpsType_id finalResultType result h3, if_neg h1]

theorem cpsTypeList_id (finalResultType : IRType) :
    ∀ ts, noSourceTypeListB ts = true → cpsTypeList finalResultType ts = ts := by
  intro ts h
  cases ts with
  | nil => rfl
  | cons t ts2 =>
      rw [noSourceTypeListB] at h
      simp only [Bool.and_eq_true] at h
      rw [cpsTypeList, cpsType_id finalResultType t h.1,
        cpsTypeList_id finalResultType ts2 h.2]

end

theorem cpsFunctionType_id (finalResultType : IRType) (f : FunctionType)
    (h : noSourceTypeB f.toType = true) : cpsFunctionType finalResultType f = f := by
  cases f with
  | mk arguments result cc =>
      unfold cpsFunctionType
      rw [cpsType_id finalResultType _ h]
      rfl

mutual

theorem cpsExpression_id (finalResultType : IRType) :
    ∀ e, noSourceExpressionB e = true → cpsExpression finalResultType e = e := by
  intro e h
  cases e
  next n => rfl
  next l => rfl
  next t =>
    rw [noSourceExpressionB] at h
    rw [cpsExpression, cpsType_id finalResultType t h]
  next t fields =>
    rw [noSourceExpressionB] at h
    simp only [Bool.and_eq_true] at h
    rw [cpsExpression, cpsType_id finalResultType t h.1,
      cpsExpressionList_id finalResultType fields h.2]
  next s d e2 =>
    rw [noSourceExpressionB] at h
    simp only [Bool.and_eq_true] at h
    rw [cpsExpression, cpsType_id finalResultType s h.1.1,
      cpsType_id finalResultType d h.1.2, cpsExpression_id finalResultType e2 h.2]
  next t o l r =>
    rw [noSourceExpressionB] at h
    simp only [Bool.and_eq_true] at h
    rw [cpsExpression, cpsExpression_id finalResultType l h.1,
      cpsExpression_id finalResultType r h.2]
  next t o l r =>
    rw [noSourceExpressionB] at h
    simp only [Bool.and_eq_true] at h
    rw [cpsExpression, cpsExpression_id finalResultType l h.1,
      cpsExpression_id finalResultType r h.2]

theorem cpsExpressionList_id (finalResultType : IRType) :
    ∀ es, noSourceExpressionListB es = true →
      cpsExpressionList finalResultType es = es := by
  intro es h
  cases es with
  | nil => rfl
  | cons e es2 =>
      rw [noSourceExpressionListB] at h
      simp only [Bool.and_eq_true] at h
      rw [cpsExpressionList, cpsExpression_id finalResultType e h.1,
        cpsExpressionList_id finalResultType es2 h.2]

end

theorem cpsTerminal_id (finalResultType : IRType) (terminal : TerminalInstruction)
    (h : noSourceTerminalB terminal = true) :
    cpsTerminal finalResultType terminal = terminal := by
  cases terminal with
  | return_ t e =>
      rw [noSourceTerminalB] at h
      simp only [Bool.and_eq_true] at h
      rw [cpsTerminal, cpsType_id finalResultType t h.1,
        cpsExpression_id finalResultType e h.2]
  | branch t e =>
      rw [noSourceTerminalB] at h
      simp only [Bool.and_eq_true] at h
      rw [cpsTerminal, cpsType_id finalResultType t h.1,
        cpsExpression_id finalResultType e h.2]
  | unreachable => rfl

mutual

theorem cpsInstruction_id (finalResultType : IRType) :
    ∀ i, noSourceInstructionB i = true → cpsInstruction finalResultType i = i := by
  intro i h
  cases i with
  | allocateStack t n =>
      rw [noSourceInstructionB] at h
      rw [cpsInstruction, cpsType_id finalResultType t h]
  | call c =>
      rw [noSourceInstructionB] at h
      simp only [Bool.and_eq_true] at h
      cases c with
      | mk ctype cfunction carguments cname =>
          rw [cpsInstruction, cpsFunctionType_id finalResultType _ h.1.1,
            cpsExpression_id finalResultType _ h.1.2,
            cpsExpressionList_id finalResultType _ h.2]
  | deconstructRecord t e j n =>
      rw [noSourceInstructionB] at h
      simp only [Bool.and_eq_true] at h
      rw [cpsInstruction, cpsType_id finalResultType t h.1,
        cpsExpression_id finalResultType e h.2]
  | if_ t condition thenBlock elseBlock n =>
      rw [noSourceInstructionB] at h
      simp only [Bool.and_eq_true] at h
      rw [cpsInstruction, cpsType_id finalResultType t h.1.1.1,
        cpsExpression_id finalResultType condition h.1.1.2,
        cpsBlock_id finalResultType thenBlock h.1.2,
        cpsBlock_id finalResultType elseBlock h.2]
  | load t p n =>
      rw [noSourceInstructionB] at h
      simp only [Bool.and_eq_true] at h
      rw [cpsInstruction, cpsType_id finalResultType t h.1,
        cpsExpression_id finalResultType p h.2]
  | memoryCopy s d z =>
      rw [noSourceInstructionB] at h
      simp only [Bool.and_eq_true] at h
      rw [cpsInstruction, cpsExpression_id finalResultType s h.1.1,
        cpsExpression_id finalResultType d h.1.2, cpsExpression_id finalResultType z h.2]
  | passThrough t e n =>
      rw [noSourceInstructionB] at h
      simp only [Bool.and_eq_true] at h
      rw [cpsInstruction, cpsType_id finalResultType t h.1,
        cpsExpression_id finalResultType e h.2]
  | store t v p =>
      rw [noSourceInstructionB] at h
      simp only [Bool.and_eq_true] at h
      rw [cpsInstruction, cpsType_id finalResultType t h.1.1,
        cpsExpression_id finalResultType v h.1.2, cpsExpression_id finalResultType p h.2]

theorem cpsInstructionList_id (finalResultType : IRType) :
    ∀ is, noSourceInstructionListB is = true →
      cpsInstructionList finalResultType is = is := by
  intro is h
  cases is with
  | nil => rfl
  | cons i is2 =>
      rw [noSourceInstructionListB] at h
      simp only [Bool.and_eq_true] at h
      rw [cpsInstructionList, cpsInstruction_id finalResultType i h.1,
        cpsInstructionList_id finalResultType is2 h.2]

theorem cpsBlock_id (finalResultType : IRType) :
    ∀ b, noSourceBlockB b = true → cpsBlock finalResultType b = b := by
  intro b h
  cases b with
  | mk is terminal =>
      rw [noSourceBlockB] at h
      simp only [Bool.and_eq_true] at h
      rw [cpsBlock, cpsInstructionList_id finalResultType is h.1,
        cpsTerminal_id finalResultType terminal h.2]

end

theorem cpsDefinitionTypes_id (finalResultType : IRType) (d : FunctionDefinition)
    (h : noSourceDefinitionB d = true) : cpsDefinitionTypes finalResultType d = d := by
  rw [noSourceDefinitionB] at h
  simp only [Bool.and_eq_true, List.all_eq_true] at h
  obtain ⟨⟨⟨_, hargs⟩, hres⟩, hbody⟩ := h
  cases d with
  | mk name arguments resultType body options =>
      unfold cpsDefinitionTypes
      simp only
      rw [cpsType_id finalResultType _ hres, cpsBlock_id finalResultType _ hbody]
      rw [List.map_congr_left (fun a ha => ?_), List.map_id]
      cases a with
      | mk aname atype =>
          simp only [id]
          rw [cpsType_id finalResultType _ (hargs _ ha)]

theorem cpsModuleTypes_id (finalResultType : IRType) (m : IRModule)
    (h : noSourceModuleB m = true) : cpsModuleTypes finalResultType m = m := by
  rw [noSourceModuleB] at h
  simp only [Bool.and_eq_true, List.all_eq_true] at h
  obtain ⟨⟨⟨hvd, hfd⟩, hvdef⟩, hfdef⟩ := h
  cases m with
  | mk variableDeclarations functionDeclarations variableDefinitions functionDefinitions =>
      unfold cpsModuleTypes
      simp only [IRModule.mk.injEq]
      refine ⟨?_, ?_, ?_, ?_⟩
      · rw [List.map_congr_left (fun d hd => ?_), List.map_id]
        cases d with
        | mk dname dtype =>
            simp only [id]
            rw [cpsType_id finalResultType _ (hvd _ hd)]
      · rw [List.map_congr_left (fun d hd => ?_), List.map_id]
        cases d with
        | mk dname dtype =>
            simp only [id]
            rw [cpsFunctionType_id finalResultType _ (hfd _ hd)]
      · rw [List.map_congr_left (fun d hd => ?_), List.map_id]
        cases d with
        | mk dname dbody dtype =>
            have h2 := hvdef _ hd
            simp only [Bool.and_eq_true] at h2
            simp only [id]
            rw [cpsType_id finalResultType _ h2.1, cpsExpression_id finalResultType _ h2.2]
      · rw [List.map_congr_left (fun d hd => cpsDefinitionTypes_id finalResultType d
          (hfdef _ hd))]
        exact List.map_id _

theorem noSourceFunctionType_cc (f : FunctionType)
    (h : noSourceTypeB f.toType = true) : f.callingConvention ≠ .source := by
  cases f with
  | mk arguments result cc =>
      simp only [FunctionType.toType, noSourceTypeB, Bool.and_eq_true, ne_eq,
        decide_not, Bool.not_eq_true', decide_eq_false_iff_not] at h
      exact h.1.1

mutual

theorem bridgeIdInstructions (finalResultType : IRType) :
    ∀ (instructions : List Instruction) (st : TfState),
      noSourceInstructionListB instructions = true →
      compileInstructionList finalResultType st instructions = (st, instructions) := by
  intro instructions st h
  cases instructions with
  | nil => rfl
  | cons i rest =>
      rw [noSourceInstructionListB] at h
      simp only [Bool.and_eq_true] at h
      obtain ⟨hi, hrest⟩ := h
      cases i with
      | call c =>
          rw [noSourceInstructionB] at hi
          simp only [Bool.and_eq_true] at hi
          have hcc := noSourceFunctionType_cc c.type hi.1.1
          rw [compileInstructionList, if_neg hcc,
            bridgeIdInstructions finalResultType rest st hrest]
      | if_ t condition thenBlock elseBlock n =>
          rw [noSourceInstructionB] at hi
          simp only [Bool.and_eq_true] at hi
          simp only [compileInstructionList,
            bridgeIdBlock finalResultType thenBlock st hi.1.2,
            bridgeIdBlock finalResultType elseBlock st hi.2,
            bridgeIdInstructions finalResultType rest st hrest]
      | allocateStack t n =>
          simp only [compileInstructionList, bridgeIdInstructions finalResultType rest st hrest]
      | deconstructRecord t e j n =>
          simp only [compileInstructionList, bridgeIdInstructions finalResultType rest st hrest]
      | load t p n =>
          simp only [compileInstructionList, bridgeIdInstructions finalResultType rest st hrest]
      | memoryCopy s2 d2 z =>
          simp only [compileInstructionList, bridgeIdInstructions finalResultType rest st hrest]
      | passThrough t e n =>
          simp only [compileInstructionList, bridgeIdInstructions finalResultType rest st hrest]
      | store t v p =>
          simp only [compileInstructionList, bridgeIdInstructions finalResultType rest st hrest]

theorem bridgeIdBlock (finalResultType : IRType) :
    ∀ (b : Block) (st : TfState), noSourceBlockB b = true →
      compileBridgeBlock finalResultType st b = (st, b) := by
  intro b st h
  cases b with
  | mk is terminal =>
      rw [noSourceBlockB] at h
      simp only [Bool.and_eq_true] at h
      rw [compileBridgeBlock, bridgeIdInstructions finalResultType is st h.1]

end

theorem bridgeIdDefinition (finalResultType : IRType) (st : TfState)
    (d : FunctionDefinition) (h : noSourceDefinitionB d = true) :
    compileBridgeDefinition finalResultType st d = (st, d) := by
  rw [noSourceDefinitionB] at h
  simp only [Bool.and_eq_true] at h
  unfold compileBridgeDefinition
  by_cases hcc : d.options.callingConvention = CallingConvention.target
  · rw [if_pos hcc, bridgeIdBlock finalResultType d.body st h.2]
  · rw [if_neg hcc]

theorem bridgeIdDefinitionList (finalResultType : IRType) :
    ∀ (ds : List FunctionDefinition) (st : TfState),
      (∀ d ∈ ds, noSourceDefinitionB d = true) →
      compileBridgeDefinitionList finalResultType st ds = (st, ds) := by
  intro ds
  induction ds with
  | nil => intro st _; rfl
  | cons d rest ih =>
      intro st h
      simp only [compileBridgeDefinitionList,
        bridgeIdDefinition finalResultType st d (h d (List.mem_cons_self _ _)),
        ih st (fun d2 hd2 => h d2 (List.mem_cons_of_mem _ hd2))]

theorem targetFunctionCompile_id (finalResultType : IRType) (m : IRModule)
    (h : noSourceModuleB m = true) : targetFunctionCompile finalResultType m = m := by
  have hdefs : ∀ d ∈ m.functionDefinitions, noSourceDefinitionB d = true := by
    rw [noSourceModuleB] at h
    simp only [Bool.and_eq_true, List.all_eq_true] at h
    exact h.2
  unfold targetFunctionCompile
  rw [bridgeIdDefinitionList finalResultType m.functionDefinitions ⟨0, []⟩ hdefs]
  simp only [List.append_nil]

theorem sfIdDefinitionList (finalResultType : IRType) :
    ∀ (ds : List FunctionDefinition) (st : SfState),
      (∀ d ∈ ds, d.options.callingConvention ≠ .source) →
      transformDefinitionList finalResultType st ds = (st, ds) := by
  intro ds
  induction ds with
  | nil => intro st _; rfl
  | cons d rest ih =>
      intro st h
      have hd1 : transformFunctionDefinition finalResultType st d = (st, d) := by
        unfold transformFunctionDefinition
        rw [if_neg (h d (List.mem_cons_self _ _))]
      simp only [transformDefinitionList, hd1,
        ih st (fun d2 hd2 => h d2 (List.mem_cons_of_mem _ hd2))]

theorem sourceFunctionTransform_id (finalResultType : IRType) (m : IRModule)
    (h : noSourceModuleB m = true) : sourceFunctionTransform finalResultType m = m := by
  have hdefs : ∀ d ∈ m.functionDefinitions, d.options.callingConvention ≠ .source := by
    rw [noSourceModuleB] at h
    simp only [Bool.and_eq_true, List.all_eq_true] at h
    intro d hd
    have h2 := h.2 d hd
    rw [noSourceDefinitionB] at h2
    simp only [Bool.and_eq_true, ne_eq, decide_not, Bool.not_eq_true',
      decide_eq_false_iff_not] at h2
    exact h2.1.1.1
  unfold sourceFunctionTransform
  rw [sfIdDefinitionList finalResultType m.functionDefinitions ⟨0, []⟩ hdefs]
  simp only [List.append_nil]

theorem cpsTransform_identity (finalResultType : IRType) (m : IRModule)
    (htc : typeCheck m = true) (hns : noSourceModuleB m = true) :
    cpsTransform finalResultType m = .ok m := by
  unfold cpsTransform
  rw [if_pos htc]
  simp only [targetFunctionCompile_id finalResultType m hns,
    sourceFunctionTransform_id finalResultType m hns,
    cpsModuleTypes_id finalResultType m hns]
  rw [if_pos htc]

/-! Identity of the C calling-convention transformation on clean modules. -/

theorem transformFunctionDeclarationC_id (wordBytes : Nat) (d : FunctionDeclaration)
    (h : (!(decide (d.type.callingConvention = .target) &&
      isMemoryClass wordBytes d.type.result)) = true) :
    transformFunctionDeclarationC wordBytes d = d := by
  unfold transformFunctionDeclarationC
  by_cases hcc : d.type.callingConvention = CallingConvention.target
  · rw [if_pos hcc]
    unfold transformFunctionTypeC
    cases hb : isMemoryClass wordBytes d.type.result with
    | false => rw [if_neg (by simp [hb])]
    | true => simp [hcc, hb] at h
  · rw [if_neg hcc]

theorem transformFunctionDefinitionshapeC_id (wordBytes : Nat) (d : FunctionDefinition)
    (h : (!(decide (d.options.callingConvention = .target) &&
      isMemoryClass wordBytes d.resultType)) = true) :
    transformFunctionDefinitionshapeC wordBytes d = d := by
  unfold transformFunctionDefinitionshapeC
  rw [if_neg]
  intro h2
  rw [h2] at h
  simp at h

theorem transformInstructionC_id (wordBytes : Nat) (i : Instruction)
    (h : match i with
      | .call c =>
          match c.function with
          | .variable _ => c.type.callingConvention ≠ .target
          | _ => True
      | _ => True) : transformInstructionC wordBytes i = [i] := by
  cases i
  case call c =>
      simp only [transformInstructionC]
      by_cases hcc : c.type.callingConvention = CallingConvention.target
      · rw [if_pos hcc]
        simp only at h
        cases hf : c.function
        next v =>
          rw [hf] at h
          simp only at h
          exact absurd hcc h
        all_goals rfl
      · rw [if_neg hcc]
  all_goals rfl

theorem transformBlockC_id (wordBytes : Nat) (b : Block)
    (h : ∀ i ∈ b.instructions, match i with
      | .call c =>
          match c.function with
          | .variable _ => c.type.callingConvention ≠ .target
          | _ => True
      | _ => True) : transformBlockC wordBytes b = b := by
  cases b with
  | mk is terminal =>
      unfold transformBlockC
      simp only [Block.mk.injEq, and_true]
      induction is with
      | nil => rfl
      | cons i rest ih =>
          rw [List.flatMap_cons,
            transformInstructionC_id wordBytes i (h i (List.mem_cons_self _ _)),
            ih (fun j hj => h j (List.mem_cons_of_mem _ hj))]
          rfl

theorem cCallingConventionTransform_identity (m : IRModule)
    (htc : typeCheck m = true)
    (hnm : noMemoryReturningTargetResults m 8 = true)
    (hnv : noVariableCalleeTargetCall m = true) :
    cCallingConventionTransform m 8 = .ok m := by
  unfold noMemoryReturningTargetResults at hnm
  simp only [Bool.and_eq_true, List.all_eq_true] at hnm
  unfold noVariableCalleeTargetCall at hnv
  simp only [List.all_eq_true] at hnv
  have hdecl : ∀ d ∈ m.functionDeclarations, transformFunctionDeclarationC 8 d = d :=
    fun d hd => transformFunctionDeclarationC_id 8 d (hnm.1.1 d hd)
  have hdef : ∀ d ∈ m.functionDefinitions,
      transformFunctionDefinitionC 8 (transformFunctionDefinitionshapeC 8 d) = d := by
    intro d hd
    rw [transformFunctionDefinitionshapeC_id 8 d (hnm.1.2 d hd)]
    unfold transformFunctionDefinitionC
    have hblock : transformBlockC 8 d.body = d.body := by
      apply transformBlockC_id
      intro i hi
      have h3 := hnv d hd i hi
      cases i
      case call c =>
          dsimp only at h3 ⊢
          cases hf : c.function
          next v =>
            rw [hf] at h3
            dsimp only at h3
            simp only [decide_eq_true_eq] at h3
            exact h3
          all_goals trivial
      all_goals trivial
    rw [hblock]
  have hm2 : (⟨m.variableDeclarations,
      m.functionDeclarations.map (transformFunctionDeclarationC 8),
      m.variableDefinitions,
      m.functionDefinitions.map
        (fun d => transformFunctionDefinitionC 8
          (transformFunctionDefinitionshapeC 8 d))⟩ : IRModule) = m := by
    rw [List.map_congr_left hdecl, List.map_congr_left hdef]
    simp
  unfold cCallingConventionTransform
  rw [if_neg (by simp), if_pos htc]
  simp only []
  rw [hm2, if_pos htc]

/-- C4 counterexample: the claim fails in both halves.  The well-typed
module whose only Target call returns a register-class i64 through a
variable callee contains no memory-returning Target result, yet the
transform rewrites the call and fails its output type check instead of
returning the module unchanged; and an ill-typed Source-free module makes
cps_transform fail instead of returning it unchanged. -/
theorem clean_module_identity_counterexample :
    typeCheck moduleC4Register = true ∧
      noMemoryReturningTargetResults moduleC4Register 8 = true ∧
      cCallingConventionTransform moduleC4Register 8 = .error .typeCheck ∧
      cCallingConventionTransform moduleC4Register 8 ≠ .ok moduleC4Register ∧
      noSourceModuleB moduleC4IllTyped = true ∧
      cpsTransform voidType moduleC4IllTyped = .error .typeCheck ∧
      cpsTransform voidType moduleC4IllTyped ≠ .ok moduleC4IllTyped :=
  ⟨rfl, rfl, rfl,
    by rw [show cCallingConventionTransform moduleC4Register 8 =
        .error .typeCheck from rfl]; simp,
    rfl, rfl,
    by rw [show cpsTransform voidType moduleC4IllTyped = .error .typeCheck from rfl]; simp⟩

/-- C4 amended: both transforms are the identity on well-typed clean
modules: cps_transform returns a type-checked module with no Source
conventions unchanged, and the C calling-convention transform returns a
type-checked module with no memory-returning Target results and no
top-level Target call with a variable-reference callee unchanged at word
size 8. -/
theorem clean_module_identity_amended :
    (∀ (finalResultType : IRType) (m : IRModule), typeCheck m = true →
      noSourceModuleB m = true → cpsTransform finalResultType m = .ok m)
    ∧ ∀ m : IRModule, typeCheck m = true → noMemoryReturningTargetResults m 8 = true →
      noVariableCalleeTargetCall m = true → cCallingConventionTransform m 8 = .ok m :=
  ⟨cpsTransform_identity, cCallingConventionTransform_identity⟩

/-- C4 amended witness: both identities instantiated at the empty module. -/
theorem clean_module_identity_amended_witness :
    cpsTransform voidType ⟨[], [], [], []⟩ = .ok ⟨[], [], [], []⟩ ∧
      cCallingConventionTransform ⟨[], [], [], []⟩ 8 = .ok ⟨[], [], [], []⟩ :=
  ⟨clean_module_identity_amended.1 voidType ⟨[], [], [], []⟩ rfl rfl,
    clean_module_identity_amended.2 ⟨[], [], [], []⟩ rfl rfl rfl⟩
